import Mathlib

set_option maxHeartbeats 1000000

/-!
Verification development for the autoposting core of GapecoinTerminal
(src/services/autopost.py together with the image tool in
src/services/tools/legacy/image_generation.py).

Strings are modelled as Lean `String` / `List Char`; Python's `str.splitlines`,
`str.strip`, `str.lower().startswith`, and `re.sub(r"\s+", " ", ...)` are
embedded character-by-character below.  Dynamic Python values flowing out of
the language model are modelled by the JSON-shaped type `PVal`, and each
fallible Python expression is modelled in `Except Exc`.
-/

/-- Characters treated as line boundaries by Python `str.splitlines`. -/
def breakChars : List Char :=
  ['\n', '\r', Char.ofNat 0x0b, Char.ofNat 0x0c, Char.ofNat 0x1c,
   Char.ofNat 0x1d, Char.ofNat 0x1e, Char.ofNat 0x85,
   Char.ofNat 0x2028, Char.ofNat 0x2029]

def isLineBreak (c : Char) : Bool := breakChars.contains c

/-- Whitespace characters that are not line boundaries (Python `str.strip`
strips these as well; `\s` in `re` matches them). -/
def otherSpaceChars : List Char :=
  [' ', '\t', Char.ofNat 0xa0, Char.ofNat 0x1680,
   Char.ofNat 0x2000, Char.ofNat 0x2001, Char.ofNat 0x2002, Char.ofNat 0x2003,
   Char.ofNat 0x2004, Char.ofNat 0x2005, Char.ofNat 0x2006, Char.ofNat 0x2007,
   Char.ofNat 0x2008, Char.ofNat 0x2009, Char.ofNat 0x200a,
   Char.ofNat 0x202f, Char.ofNat 0x205f, Char.ofNat 0x3000]

/-- Python whitespace: line boundaries plus the other space characters. -/
def isPySpace (c : Char) : Bool := isLineBreak c || otherSpaceChars.contains c

/-- `str.splitlines` worker: `cur` holds the current line reversed; a
`"\r\n"` pair counts as a single line boundary. -/
def splitlinesGo (cur : List Char) : List Char → List (List Char)
  | [] => if cur.isEmpty then [] else [cur.reverse]
  | [c] => if isLineBreak c then [cur.reverse] else [(c :: cur).reverse]
  | c :: c2 :: rest =>
    if isLineBreak c then
      cur.reverse ::
        (if c = '\r' && c2 = '\n' then splitlinesGo [] rest
         else splitlinesGo [] (c2 :: rest))
    else splitlinesGo (c :: cur) (c2 :: rest)

/-- Python `str.splitlines` on a character list. -/
def pySplitlines (l : List Char) : List (List Char) := splitlinesGo [] l

/-- Trim trailing Python whitespace. -/
def trimRight : List Char → List Char
  | [] => []
  | c :: rest =>
    let r := trimRight rest
    if r.isEmpty && isPySpace c then [] else c :: r

/-- Python `str.strip()`: drop whitespace from both ends. -/
def pyStrip (l : List Char) : List Char := (trimRight l).dropWhile isPySpace

/-- `re.sub(r"\s+", " ", ...)`: collapse every maximal whitespace run to a
single space (a run emits its single `' '` at the run's last character). -/
def collapseWs : List Char → List Char
  | [] => []
  | [c] => if isPySpace c then [' '] else [c]
  | c :: c2 :: rest =>
    if isPySpace c then
      if isPySpace c2 then collapseWs (c2 :: rest)
      else ' ' :: collapseWs (c2 :: rest)
    else c :: collapseWs (c2 :: rest)

/-- The image marker `"[image"` checked by the sanitizer. -/
def imageMarker : List Char := ['[', 'i', 'm', 'a', 'g', 'e']

/-- `s.lower().startswith(p)` (character-wise ASCII lowering). -/
def lowerStartsWith (s p : List Char) : Bool :=
  p.isPrefixOf (s.map Char.toLower)

def startsWithChar (s : List Char) (c : Char) : Bool := s.head? == some c

def endsWithChar (s : List Char) (c : Char) : Bool := s.getLast? == some c

/-- The filter applied to each line of the input inside
`sanitize_post_text`: strip the line, then drop it when it is blank, starts
with the image marker, opens with `\x7b` or closes with `\x7d`. -/
def keepLine (line : List Char) : Option (List Char) :=
  let s := pyStrip line
  if s.isEmpty then none
  else if lowerStartsWith s imageMarker then none
  else if startsWithChar s '{' || endsWithChar s '}' then none
  else some s

/-- `" ".join(lines)` on character lists. -/
def joinLines : List (List Char) → List Char
  | [] => []
  | [l] => l
  | l :: ls => l ++ ' ' :: joinLines ls

/-- Body of `sanitize_post_text` on the character list of the input. -/
def sanitizeCore (l : List Char) : List Char :=
  pyStrip (collapseWs (joinLines ((pySplitlines l).filterMap keepLine)))

/-- `sanitize_post_text` from src/services/autopost.py. -/
def sanitize_post_text (s : String) : String :=
  if s = "" then "" else String.mk (sanitizeCore s.data)

/-! ### Supporting predicates for the sanitizer proofs -/

/-- `p` is a prefix of `l`. -/
def IsPre (p l : List Char) : Prop := ∃ t, p ++ t = l

/-- No two adjacent whitespace characters. -/
def noAdjSp : List Char → Bool
  | [] => true
  | [_] => true
  | a :: b :: t => !(isPySpace a && isPySpace b) && noAdjSp (b :: t)

lemma isPySpace_of_isLineBreak {c : Char} (h : isLineBreak c = true) :
    isPySpace c = true := by
  simp [isPySpace, h]

lemma not_break_of_not_space {c : Char} (h : isPySpace c = false) :
    isLineBreak c = false := by
  by_contra hcon
  simp only [Bool.not_eq_false] at hcon
  simp [isPySpace_of_isLineBreak hcon] at h

lemma space_space : isPySpace ' ' = true := by decide

lemma break_space : isLineBreak ' ' = false := by decide

lemma noAdjSp_cons {a : Char} {t : List Char} (h : noAdjSp (a :: t) = true) :
    noAdjSp t = true := by
  cases t with
  | nil => rfl
  | cons b t => simp [noAdjSp] at h; exact h.2

/-- `isPrefixOf` unfolded to an explicit append. -/
lemma isPrefixOf_iff_append : ∀ p l : List Char,
    p.isPrefixOf l = true ↔ ∃ t, p ++ t = l := by
  intro p
  induction p with
  | nil => intro l; simp [List.isPrefixOf]
  | cons a p ih =>
    intro l
    cases l with
    | nil => simp [List.isPrefixOf]
    | cons b l =>
      simp only [List.isPrefixOf, Bool.and_eq_true, beq_iff_eq, ih l]
      constructor
      · rintro ⟨rfl, t, rfl⟩; exact ⟨t, rfl⟩
      · rintro ⟨t, h⟩
        injection h with h1 h2
        exact ⟨h1, t, h2⟩

/-! ### `pySplitlines` lemmas -/

lemma splitlinesGo_noBreak : ∀ (n : Nat) (l : List Char), l.length ≤ n →
    ∀ (cur : List Char), (∀ c ∈ cur, isLineBreak c = false) →
    ∀ line ∈ splitlinesGo cur l, ∀ c ∈ line, isLineBreak c = false := by
  intro n
  induction n with
  | zero =>
    intro l hl cur hcur line hline
    have : l = [] := List.eq_nil_of_length_eq_zero (Nat.le_zero.mp hl)
    subst this
    simp only [splitlinesGo] at hline
    split at hline
    · simp at hline
    · simp only [List.mem_singleton] at hline
      subst hline
      intro c hc
      exact hcur c (List.mem_reverse.mp hc)
  | succ n ih =>
    intro l hl cur hcur line hline
    rcases l with _ | ⟨c0, _ | ⟨c1, rest⟩⟩
    · simp only [splitlinesGo] at hline
      split at hline
      · simp at hline
      · simp only [List.mem_singleton] at hline
        subst hline
        intro c hc
        exact hcur c (List.mem_reverse.mp hc)
    · by_cases hb : isLineBreak c0 = true
      · simp only [splitlinesGo, hb, if_true, List.mem_singleton] at hline
        subst hline
        intro c hc
        exact hcur c (List.mem_reverse.mp hc)
      · simp only [splitlinesGo, hb, if_false, Bool.false_eq_true,
          List.mem_singleton] at hline
        subst hline
        intro c hc
        rcases List.mem_cons.mp (List.mem_reverse.mp hc) with h | h
        · subst h; simpa using hb
        · exact hcur c h
    · simp only [List.length_cons] at hl
      by_cases hb : isLineBreak c0 = true
      · simp only [splitlinesGo, hb, if_true] at hline
        rcases List.mem_cons.mp hline with h | h
        · subst h
          intro c hc
          exact hcur c (List.mem_reverse.mp hc)
        · split at h
          · exact ih rest (by omega) [] (by simp) line h
          · exact ih (c1 :: rest) (by simp; omega) [] (by simp) line h
      · simp only [splitlinesGo, hb, if_false, Bool.false_eq_true] at hline
        refine ih (c1 :: rest) (by simp; omega) (c0 :: cur) ?_ line hline
        intro c hc
        rcases List.mem_cons.mp hc with h | h
        · subst h; simpa using hb
        · exact hcur c h

lemma pySplitlines_noBreak {l : List Char} {line : List Char}
    (hline : line ∈ pySplitlines l) : ∀ c ∈ line, isLineBreak c = false :=
  splitlinesGo_noBreak l.length l (Nat.le_refl _) [] (by simp) line hline

lemma splitlinesGo_of_noBreak : ∀ (l cur : List Char),
    (∀ c ∈ l, isLineBreak c = false) →
    splitlinesGo cur l =
      if cur.isEmpty && l.isEmpty then [] else [cur.reverse ++ l] := by
  intro l
  induction l with
  | nil => intro cur _; simp [splitlinesGo]
  | cons c0 rest ih =>
    intro cur hl
    have hc0 : isLineBreak c0 = false := hl c0 (by simp)
    match rest with
    | [] => simp [splitlinesGo, hc0]
    | c1 :: rest' =>
      have hrec := ih (c0 :: cur) (fun c hc => hl c (List.mem_cons_of_mem _ hc))
      simp only [splitlinesGo, hc0, if_false, Bool.false_eq_true]
      rw [hrec]
      simp

lemma pySplitlines_of_noBreak {l : List Char} (hl : ∀ c ∈ l, isLineBreak c = false)
    (hne : l ≠ []) : pySplitlines l = [l] := by
  unfold pySplitlines
  rw [splitlinesGo_of_noBreak l [] hl]
  cases l with
  | nil => exact absurd rfl hne
  | cons a t => simp

/-! ### `trimRight` / `pyStrip` lemmas -/

lemma trimRight_isPre : ∀ l : List Char, IsPre (trimRight l) l := by
  intro l
  induction l with
  | nil => exact ⟨[], rfl⟩
  | cons c rest ih =>
    simp only [trimRight]
    split
    · exact ⟨c :: rest, rfl⟩
    · obtain ⟨t, ht⟩ := ih
      exact ⟨t, by simp [ht]⟩

lemma mem_of_isPre {p l : List Char} (h : IsPre p l) {c : Char} (hc : c ∈ p) :
    c ∈ l := by
  obtain ⟨t, rfl⟩ := h
  exact List.mem_append_left t hc

lemma getLast?_cons_of_ne_nil {c : Char} {r : List Char} (h : r ≠ []) :
    (c :: r).getLast? = r.getLast? := by
  cases r with
  | nil => exact absurd rfl h
  | cons b t => simp [List.getLast?_cons_cons]

lemma trimRight_getLast_not_space : ∀ (l : List Char) (c : Char),
    (trimRight l).getLast? = some c → isPySpace c = false := by
  intro l
  induction l with
  | nil => intro c h; simp [trimRight] at h
  | cons a rest ih =>
    intro c h
    simp only [trimRight] at h
    split at h
    · simp at h
    · rename_i hcond
      rcases hr : trimRight rest with _ | ⟨b, t⟩
      · rw [hr] at h hcond
        simp only [List.isEmpty_nil, Bool.true_and] at hcond
        simp only [List.getLast?_singleton, Option.some.injEq] at h
        subst h
        simpa using hcond
      · rw [hr] at h
        rw [getLast?_cons_of_ne_nil (by simp)] at h
        exact ih c (by rw [hr]; exact h)

lemma trimRight_fix : ∀ l : List Char,
    (∀ c, l.getLast? = some c → isPySpace c = false) → trimRight l = l := by
  intro l
  induction l with
  | nil => intro _; rfl
  | cons a rest ih =>
    intro h
    rcases rest with _ | ⟨b, t⟩
    · have ha := h a (by simp)
      simp [trimRight, ha]
    · have hrec : trimRight (b :: t) = b :: t := by
        refine ih ?_
        intro c hc
        refine h c ?_
        rw [getLast?_cons_of_ne_nil (by simp)]
        exact hc
      rw [show trimRight (a :: b :: t) =
            (if (trimRight (b :: t)).isEmpty && isPySpace a then []
             else a :: trimRight (b :: t)) from rfl,
          hrec]
      simp

lemma dropWhile_head_not {p : Char → Bool} : ∀ (l : List Char) (c : Char),
    (l.dropWhile p).head? = some c → p c = false := by
  intro l
  induction l with
  | nil => intro c h; simp [List.dropWhile] at h
  | cons a rest ih =>
    intro c h
    by_cases ha : p a = true
    · rw [List.dropWhile_cons, if_pos ha] at h
      exact ih c h
    · rw [List.dropWhile_cons, if_neg ha] at h
      simp only [List.head?_cons, Option.some.injEq] at h
      subst h
      simpa using ha

lemma dropWhile_isSuf (p : Char → Bool) : ∀ l : List Char,
    ∃ t, t ++ l.dropWhile p = l := by
  intro l
  induction l with
  | nil => exact ⟨[], rfl⟩
  | cons a rest ih =>
    by_cases ha : p a = true
    · obtain ⟨t, ht⟩ := ih
      rw [List.dropWhile_cons, if_pos ha]
      exact ⟨a :: t, by simp [ht]⟩
    · rw [List.dropWhile_cons, if_neg ha]
      exact ⟨[], rfl⟩

lemma dropWhile_fix {p : Char → Bool} {l : List Char}
    (h : ∀ c, l.head? = some c → p c = false) : l.dropWhile p = l := by
  cases l with
  | nil => rfl
  | cons a rest =>
    rw [List.dropWhile_cons, if_neg (by simp [h a rfl])]

lemma getLast?_append_right : ∀ (t r : List Char), r ≠ [] →
    (t ++ r).getLast? = r.getLast? := by
  intro t
  induction t with
  | nil => intro r _; rfl
  | cons a t ih =>
    intro r hr
    rw [List.cons_append, getLast?_cons_of_ne_nil (by simp [hr]), ih r hr]

lemma pyStrip_mem {l : List Char} {c : Char} (hc : c ∈ pyStrip l) : c ∈ l := by
  unfold pyStrip at hc
  obtain ⟨t, ht⟩ := dropWhile_isSuf isPySpace (trimRight l)
  have : c ∈ trimRight l := by
    rw [← ht]; exact List.mem_append_right t hc
  exact mem_of_isPre (trimRight_isPre l) this

lemma pyStrip_head_not_space {l : List Char} {c : Char}
    (h : (pyStrip l).head? = some c) : isPySpace c = false :=
  dropWhile_head_not (trimRight l) c h

lemma pyStrip_getLast_not_space {l : List Char} {c : Char}
    (h : (pyStrip l).getLast? = some c) : isPySpace c = false := by
  unfold pyStrip at h
  obtain ⟨t, ht⟩ := dropWhile_isSuf isPySpace (trimRight l)
  have hne : (trimRight l).dropWhile isPySpace ≠ [] := by
    intro hnil
    rw [hnil] at h
    simp at h
  have : (trimRight l).getLast? = some c := by
    rw [← ht, getLast?_append_right t _ hne]
    exact h
  exact trimRight_getLast_not_space l c this

lemma pyStrip_fix {l : List Char}
    (hh : ∀ c, l.head? = some c → isPySpace c = false)
    (hl : ∀ c, l.getLast? = some c → isPySpace c = false) : pyStrip l = l := by
  unfold pyStrip
  rw [trimRight_fix l hl]
  exact dropWhile_fix hh

/-! ### `collapseWs` lemmas -/

lemma collapseWs_ne_nil : ∀ l : List Char, l ≠ [] → collapseWs l ≠ [] := by
  intro l
  induction l with
  | nil => intro h; exact absurd rfl h
  | cons a rest ih =>
    intro _
    rcases rest with _ | ⟨b, rest'⟩
    · by_cases ha : isPySpace a = true <;> simp [collapseWs, ha]
    · by_cases ha : isPySpace a = true
      · by_cases hb : isPySpace b = true
        · simpa [collapseWs, ha, hb] using ih (by simp)
        · simp [collapseWs, ha, hb]
      · simp [collapseWs, ha]

lemma collapseWs_mem : ∀ l : List Char, ∀ c ∈ collapseWs l,
    c = ' ' ∨ (c ∈ l ∧ isPySpace c = false) := by
  intro l
  induction l with
  | nil => intro c hc; simp [collapseWs] at hc
  | cons a rest ih =>
    intro c hc
    rcases rest with _ | ⟨b, rest'⟩
    · by_cases ha : isPySpace a = true
      · simp only [collapseWs, ha, if_true, List.mem_singleton] at hc
        exact Or.inl hc
      · simp only [collapseWs, ha, if_false, Bool.false_eq_true,
          List.mem_singleton] at hc
        subst hc
        exact Or.inr ⟨by simp, by simpa using ha⟩
    · by_cases ha : isPySpace a = true
      · by_cases hb : isPySpace b = true
        · simp only [collapseWs, ha, hb, if_true] at hc
          rcases ih c hc with h | ⟨hm, hs⟩
          · exact Or.inl h
          · exact Or.inr ⟨List.mem_cons_of_mem _ hm, hs⟩
        · simp only [collapseWs, ha, hb, if_true, if_false, Bool.false_eq_true,
            List.mem_cons] at hc
          rcases hc with h | h
          · exact Or.inl h
          · rcases ih c h with h' | ⟨hm, hs⟩
            · exact Or.inl h'
            · exact Or.inr ⟨List.mem_cons_of_mem _ hm, hs⟩
      · simp only [collapseWs, ha, if_false, Bool.false_eq_true,
          List.mem_cons] at hc
        rcases hc with h | h
        · subst h
          exact Or.inr ⟨by simp, by simpa using ha⟩
        · rcases ih c h with h' | ⟨hm, hs⟩
          · exact Or.inl h'
          · exact Or.inr ⟨List.mem_cons_of_mem _ hm, hs⟩

lemma collapseWs_head_keep : ∀ (l : List Char) (c : Char), l.head? = some c →
    isPySpace c = false → (collapseWs l).head? = some c := by
  intro l c hhead hc
  rcases l with _ | ⟨a, _ | ⟨b, rest'⟩⟩
  · simp at hhead
  · simp only [List.head?_cons, Option.some.injEq] at hhead
    subst hhead
    simp [collapseWs, hc]
  · simp only [List.head?_cons, Option.some.injEq] at hhead
    subst hhead
    simp [collapseWs, hc]

lemma collapseWs_head_sp : ∀ (rest : List Char) (c : Char), isPySpace c = true →
    (collapseWs (c :: rest)).head? = some ' ' := by
  intro rest
  induction rest with
  | nil => intro c hc; simp [collapseWs, hc]
  | cons b rest' ih =>
    intro c hc
    by_cases hb : isPySpace b = true
    · simp only [collapseWs, hc, hb, if_true]
      exact ih b hb
    · simp [collapseWs, hc, hb]

lemma collapseWs_noAdj : ∀ l : List Char, noAdjSp (collapseWs l) = true := by
  intro l
  induction l with
  | nil => rfl
  | cons a rest ih =>
    rcases rest with _ | ⟨b, rest'⟩
    · by_cases ha : isPySpace a = true <;> simp [collapseWs, ha, noAdjSp]
    · by_cases ha : isPySpace a = true
      · by_cases hb : isPySpace b = true
        · simpa [collapseWs, ha, hb] using ih
        · simp only [collapseWs, ha, hb, if_true, if_false, Bool.false_eq_true]
          rcases hX : collapseWs (b :: rest') with _ | ⟨d, X'⟩
          · rfl
          · have hd : (collapseWs (b :: rest')).head? = some b :=
              collapseWs_head_keep _ b (by simp) (by simpa using hb)
            rw [hX] at hd
            simp only [List.head?_cons, Option.some.injEq] at hd
            subst hd
            have := ih
            rw [hX] at this
            simp [noAdjSp, hb, this]
      · simp only [collapseWs, ha, if_false, Bool.false_eq_true]
        rcases hX : collapseWs (b :: rest') with _ | ⟨d, X'⟩
        · rfl
        · have := ih
          rw [hX] at this
          simp [noAdjSp, ha, this]

lemma collapseWs_getLast : ∀ (l : List Char) (c : Char), l.getLast? = some c →
    isPySpace c = false → (collapseWs l).getLast? = some c := by
  intro l
  induction l with
  | nil => intro c h _; simp at h
  | cons a rest ih =>
    intro c h hc
    rcases rest with _ | ⟨b, rest'⟩
    · simp only [List.getLast?_singleton, Option.some.injEq] at h
      subst h
      simp [collapseWs, hc]
    · rw [getLast?_cons_of_ne_nil (by simp)] at h
      have htail := ih c h hc
      have hne : collapseWs (b :: rest') ≠ [] := collapseWs_ne_nil _ (by simp)
      by_cases ha : isPySpace a = true
      · by_cases hb : isPySpace b = true
        · simpa [collapseWs, ha, hb] using htail
        · simp only [collapseWs, ha, hb, if_true, if_false, Bool.false_eq_true]
          rw [getLast?_cons_of_ne_nil hne]
          exact htail
      · simp only [collapseWs, ha, if_false, Bool.false_eq_true]
        rw [getLast?_cons_of_ne_nil hne]
        exact htail

lemma collapseWs_fix : ∀ l : List Char, (∀ c ∈ l, isPySpace c = true → c = ' ') →
    noAdjSp l = true → collapseWs l = l := by
  intro l
  induction l with
  | nil => intro _ _; rfl
  | cons a rest ih =>
    intro hsp hadj
    rcases rest with _ | ⟨b, rest'⟩
    · by_cases ha : isPySpace a = true
      · have : a = ' ' := hsp a (by simp) ha
        subst this
        simp [collapseWs, ha]
      · simp [collapseWs, ha]
    · have hrec : collapseWs (b :: rest') = b :: rest' :=
        ih (fun c hc => hsp c (List.mem_cons_of_mem _ hc)) (noAdjSp_cons hadj)
      by_cases ha : isPySpace a = true
      · have hb : isPySpace b = false := by
          simp only [noAdjSp, Bool.and_eq_true, Bool.not_eq_true',
            Bool.and_eq_false_iff] at hadj
          rcases hadj.1 with h | h
          · rw [h] at ha; exact absurd ha (by simp)
          · exact h
        have : a = ' ' := hsp a (by simp) ha
        subst this
        simp [collapseWs, ha, hb, hrec]
      · simp [collapseWs, ha, hrec]

lemma collapseWs_isPre : ∀ l p : List Char, IsPre p (collapseWs l) →
    (∀ c ∈ p, isPySpace c = false) → IsPre p l := by
  intro l
  induction l with
  | nil =>
    intro p h _
    obtain ⟨t, ht⟩ := h
    simp only [collapseWs] at ht
    rcases p with _ | ⟨a, p'⟩
    · exact ⟨[], rfl⟩
    · simp at ht
  | cons a rest ih =>
    intro p h hp
    rcases rest with _ | ⟨b, rest'⟩
    · by_cases ha : isPySpace a = true
      · simp only [collapseWs, ha, if_true] at h
        rcases p with _ | ⟨x, p'⟩
        · exact ⟨[a], rfl⟩
        · obtain ⟨t, ht⟩ := h
          simp only [List.cons_append, List.cons.injEq] at ht
          have : x = ' ' := ht.1
          subst this
          exact absurd (hp ' ' (by simp)) (by simp [space_space])
      · simpa only [collapseWs, ha, if_false, Bool.false_eq_true] using h
    · by_cases ha : isPySpace a = true
      · have hhd : (collapseWs (a :: b :: rest')).head? = some ' ' :=
          collapseWs_head_sp _ a ha
        rcases p with _ | ⟨x, p'⟩
        · exact ⟨a :: b :: rest', rfl⟩
        · obtain ⟨t, ht⟩ := h
          have : x = ' ' := by
            rw [← ht] at hhd
            simpa using hhd
          subst this
          exact absurd (hp ' ' (by simp)) (by simp [space_space])
      · simp only [collapseWs, ha, if_false, Bool.false_eq_true] at h
        rcases p with _ | ⟨x, p'⟩
        · exact ⟨a :: b :: rest', rfl⟩
        · obtain ⟨t, ht⟩ := h
          simp only [List.cons_append, List.cons.injEq] at ht
          obtain ⟨rfl, ht'⟩ := ht
          obtain ⟨t', ht''⟩ := ih p' ⟨t, ht'⟩ (fun c hc => hp c (List.mem_cons_of_mem _ hc))
          exact ⟨t', by simp [← ht'']⟩

/-! ### `joinLines` and `keepLine` lemmas -/

lemma joinLines_mem : ∀ ls : List (List Char), ∀ c ∈ joinLines ls,
    c = ' ' ∨ ∃ l ∈ ls, c ∈ l := by
  intro ls
  induction ls with
  | nil => intro c hc; simp [joinLines] at hc
  | cons l ls ih =>
    intro c hc
    rcases ls with _ | ⟨l1, ls'⟩
    · exact Or.inr ⟨l, by simp, hc⟩
    · simp only [joinLines, List.mem_append, List.mem_cons] at hc
      rcases hc with h | h | h
      · exact Or.inr ⟨l, by simp, h⟩
      · exact Or.inl h
      · rcases ih c h with h' | ⟨l', hl', hc'⟩
        · exact Or.inl h'
        · exact Or.inr ⟨l', List.mem_cons_of_mem _ hl', hc'⟩

lemma joinLines_ne_nil : ∀ ls : List (List Char), ls ≠ [] →
    (∀ l ∈ ls, l ≠ []) → joinLines ls ≠ [] := by
  intro ls
  induction ls with
  | nil => intro h _; exact absurd rfl h
  | cons l ls _ =>
    intro _ hall
    rcases ls with _ | ⟨l1, ls'⟩
    · exact hall l (by simp)
    · have : l ≠ [] := hall l (by simp)
      simp only [joinLines]
      intro hcon
      rcases l with _ | ⟨a, t⟩
      · exact absurd rfl this
      · simp at hcon

lemma joinLines_head {l0 : List Char} (ls : List (List Char)) (h : l0 ≠ []) :
    (joinLines (l0 :: ls)).head? = l0.head? := by
  rcases ls with _ | ⟨l1, ls'⟩
  · rfl
  · rcases l0 with _ | ⟨a, t⟩
    · exact absurd rfl h
    · simp [joinLines]

lemma joinLines_getLast : ∀ ls : List (List Char), ls ≠ [] →
    (∀ l ∈ ls, l ≠ []) →
    ∃ last, last ∈ ls ∧ (joinLines ls).getLast? = last.getLast? := by
  intro ls
  induction ls with
  | nil => intro h _; exact absurd rfl h
  | cons l ls ih =>
    intro _ hall
    rcases ls with _ | ⟨l1, ls'⟩
    · exact ⟨l, by simp, rfl⟩
    · obtain ⟨last, hmem, hlast⟩ :=
        ih (by simp) (fun x hx => hall x (List.mem_cons_of_mem _ hx))
      refine ⟨last, List.mem_cons_of_mem _ hmem, ?_⟩
      have hne : joinLines (l1 :: ls') ≠ [] :=
        joinLines_ne_nil _ (by simp) (fun x hx => hall x (List.mem_cons_of_mem _ hx))
      calc (joinLines (l :: l1 :: ls')).getLast?
          = (' ' :: joinLines (l1 :: ls')).getLast? := by
            simp only [joinLines]
            exact getLast?_append_right l _ (by simp)
        _ = (joinLines (l1 :: ls')).getLast? := getLast?_cons_of_ne_nil hne
        _ = last.getLast? := hlast

lemma keepLine_eq_some {y s : List Char} (h : keepLine y = some s) :
    s = pyStrip y ∧ s ≠ [] ∧ lowerStartsWith s imageMarker = false ∧
    startsWithChar s '{' = false ∧ endsWithChar s '}' = false := by
  simp only [keepLine] at h
  split at h
  · exact absurd h (by simp)
  · split at h
    · exact absurd h (by simp)
    · split at h
      · exact absurd h (by simp)
      · rename_i h1 h2 h3
        have hs : pyStrip y = s := by simpa using h
        subst hs
        refine ⟨rfl, ?_, by simpa using h2, ?_, ?_⟩
        · intro hnil
          rw [hnil] at h1
          simp at h1
        · rcases Bool.or_eq_false_iff.mp (by simpa using h3) with ⟨h4, _⟩
          exact h4
        · rcases Bool.or_eq_false_iff.mp (by simpa using h3) with ⟨_, h5⟩
          exact h5

lemma startsWithChar_false_iff {l : List Char} {x : Char} :
    startsWithChar l x = false ↔ ∀ c, l.head? = some c → c ≠ x := by
  cases l with
  | nil => simp [startsWithChar]
  | cons a t =>
    simp only [startsWithChar, List.head?_cons]
    constructor
    · intro h c hc
      simp only [Option.some.injEq] at hc
      subst hc
      simpa using h
    · intro h
      have := h a rfl
      simpa using this

lemma endsWithChar_false_iff {l : List Char} {x : Char} :
    endsWithChar l x = false ↔ ∀ c, l.getLast? = some c → c ≠ x := by
  unfold endsWithChar
  cases h : l.getLast? with
  | none => simp
  | some e =>
    constructor
    · intro hb c hc
      simp only [Option.some.injEq] at hc
      subst hc
      simpa using hb
    · intro hall
      have := hall e rfl
      simpa using this

/-- Every line surviving the keep filter of the sanitizer: nonempty,
stripped, free of line breaks, and passing the three guard checks. -/
lemma kept_line_props {l s : List Char}
    (hs : s ∈ (pySplitlines l).filterMap keepLine) :
    s ≠ [] ∧ (∀ c ∈ s, isLineBreak c = false) ∧
    (∀ c, s.head? = some c → isPySpace c = false) ∧
    (∀ c, s.getLast? = some c → isPySpace c = false) ∧
    lowerStartsWith s imageMarker = false ∧
    startsWithChar s '{' = false ∧ endsWithChar s '}' = false := by
  obtain ⟨y, hy, hkeep⟩ := List.mem_filterMap.mp hs
  obtain ⟨hstrip, hne, himg, hbr1, hbr2⟩ := keepLine_eq_some hkeep
  subst hstrip
  refine ⟨hne, ?_, ?_, ?_, himg, hbr1, hbr2⟩
  · intro c hc
    exact pySplitlines_noBreak hy c (pyStrip_mem hc)
  · intro c hc
    exact pyStrip_head_not_space hc
  · intro c hc
    exact pyStrip_getLast_not_space hc

/-! ### Normal form of sanitizer output -/

lemma isPre_map {p l : List Char} (f : Char → Char) (h : IsPre p l) :
    IsPre (p.map f) (l.map f) := by
  obtain ⟨t, rfl⟩ := h
  exact ⟨t.map f, by simp⟩

lemma exists_isPre_of_map (f : Char → Char) : ∀ (q X : List Char),
    IsPre q (X.map f) → ∃ p, IsPre p X ∧ p.map f = q := by
  intro q
  induction q with
  | nil => intro X _; exact ⟨[], ⟨X, rfl⟩, rfl⟩
  | cons a q' ih =>
    intro X h
    obtain ⟨t, ht⟩ := h
    rcases X with _ | ⟨x, X'⟩
    · simp at ht
    · simp only [List.map_cons, List.cons_append, List.cons.injEq] at ht
      obtain ⟨ha, ht'⟩ := ht
      obtain ⟨p', hp', hm'⟩ := ih X' ⟨t, ht'⟩
      obtain ⟨t', ht''⟩ := hp'
      exact ⟨x :: p', ⟨t', by simp [ht'']⟩, by simp [hm', ha]⟩

/-- A string in the normal form produced by `sanitize_post_text`. -/
structure NormalChars (l : List Char) : Prop where
  noBreak : ∀ c ∈ l, isLineBreak c = false
  spaces : ∀ c ∈ l, isPySpace c = true → c = ' '
  noAdj : noAdjSp l = true
  headNS : ∀ c, l.head? = some c → isPySpace c = false
  lastNS : ∀ c, l.getLast? = some c → isPySpace c = false
  notImg : lowerStartsWith l imageMarker = false
  headNB : startsWithChar l '{' = false
  lastNB : endsWithChar l '}' = false

lemma normalChars_nil : NormalChars [] := by
  constructor
  · intro c hc; simp at hc
  · intro c hc; simp at hc
  · rfl
  · intro c hc; simp at hc
  · intro c hc; simp at hc
  · decide
  · decide
  · decide

/-- A normal-form string is a fixed point of the sanitizer body. -/
lemma sanitizeCore_of_normal {l : List Char} (n : NormalChars l) :
    sanitizeCore l = l := by
  rcases eq_or_ne l [] with rfl | hne
  · rfl
  · have hsplit : pySplitlines l = [l] := pySplitlines_of_noBreak n.noBreak hne
    have hstrip : pyStrip l = l := pyStrip_fix n.headNS n.lastNS
    have hempty : l.isEmpty = false := by
      cases l with
      | nil => exact absurd rfl hne
      | cons a t => rfl
    have hkeep : keepLine l = some l := by
      simp only [keepLine, hstrip, hempty, n.notImg, n.headNB, n.lastNB,
        Bool.or_self, Bool.false_eq_true, if_false]
    unfold sanitizeCore
    rw [hsplit]
    simp only [List.filterMap_cons, hkeep, List.filterMap_nil]
    have hjoin : joinLines [l] = l := rfl
    rw [hjoin, collapseWs_fix l n.spaces n.noAdj, hstrip]

/-- The sanitizer body always produces a normal-form string. -/
lemma normal_sanitizeCore (l : List Char) : NormalChars (sanitizeCore l) := by
  unfold sanitizeCore
  rcases hK : (pySplitlines l).filterMap keepLine with _ | ⟨k0, K'⟩
  · have h0 : pyStrip (collapseWs (joinLines [])) = [] := rfl
    rw [h0]
    exact normalChars_nil
  · obtain ⟨hk0ne, hk0nb, hk0h, hk0l, hk0img, hk0br1, hk0br2⟩ :=
      kept_line_props (l := l) (s := k0) (by rw [hK]; simp)
    obtain ⟨h0, hh0⟩ : ∃ h0, k0.head? = some h0 := by
      cases k0 with
      | nil => exact absurd rfl hk0ne
      | cons a t => exact ⟨a, rfl⟩
    have hh0ns : isPySpace h0 = false := hk0h h0 hh0
    have hJhead : (joinLines (k0 :: K')).head? = some h0 := by
      rw [joinLines_head K' hk0ne, hh0]
    have hXhead : (collapseWs (joinLines (k0 :: K'))).head? = some h0 :=
      collapseWs_head_keep _ _ hJhead hh0ns
    have hall : ∀ x ∈ k0 :: K', x ≠ [] := by
      intro x hx
      exact (kept_line_props (l := l) (by rw [hK]; exact hx)).1
    obtain ⟨last, hlmem, hlast⟩ := joinLines_getLast (k0 :: K') (by simp) hall
    obtain ⟨hlne, _, _, hlln, _, _, hllb⟩ :=
      kept_line_props (l := l) (s := last) (by rw [hK]; exact hlmem)
    obtain ⟨e, he⟩ : ∃ e, last.getLast? = some e := by
      cases hgl : last.getLast? with
      | none => rw [List.getLast?_eq_none_iff] at hgl; exact absurd hgl hlne
      | some e => exact ⟨e, rfl⟩
    have hens : isPySpace e = false := hlln e he
    have hJlast : (joinLines (k0 :: K')).getLast? = some e := by rw [hlast, he]
    have hXlast : (collapseWs (joinLines (k0 :: K'))).getLast? = some e :=
      collapseWs_getLast _ _ hJlast hens
    have hstrip : pyStrip (collapseWs (joinLines (k0 :: K'))) =
        collapseWs (joinLines (k0 :: K')) := by
      refine pyStrip_fix ?_ ?_
      · intro c hc
        rw [hXhead] at hc
        injection hc with hc
        subst hc
        exact hh0ns
      · intro c hc
        rw [hXlast] at hc
        injection hc with hc
        subst hc
        exact hens
    rw [hstrip]
    constructor
    · intro c hc
      rcases collapseWs_mem _ c hc with rfl | ⟨_, hs⟩
      · exact break_space
      · exact not_break_of_not_space hs
    · intro c hc hws
      rcases collapseWs_mem _ c hc with rfl | ⟨_, hs⟩
      · rfl
      · rw [hws] at hs; exact absurd hs (by simp)
    · exact collapseWs_noAdj _
    · intro c hc
      rw [hXhead] at hc
      injection hc with hc
      subst hc
      exact hh0ns
    · intro c hc
      rw [hXlast] at hc
      injection hc with hc
      subst hc
      exact hens
    · -- no image marker at the head of the collapsed join
      by_contra hcon
      simp only [Bool.not_eq_false] at hcon
      obtain ⟨t, ht⟩ := (isPrefixOf_iff_append _ _).mp hcon
      obtain ⟨p, hpPre, hpMap⟩ :=
        exists_isPre_of_map Char.toLower imageMarker _ ⟨t, ht⟩
      have hpns : ∀ c ∈ p, isPySpace c = false := by
        intro c hc
        by_contra hx
        simp only [Bool.not_eq_false] at hx
        have hcX : c ∈ collapseWs (joinLines (k0 :: K')) := mem_of_isPre hpPre hc
        have hcsp : c = ' ' := by
          rcases collapseWs_mem _ c hcX with rfl | ⟨_, hs⟩
          · rfl
          · rw [hx] at hs; exact absurd hs (by simp)
        subst hcsp
        have hmm : Char.toLower ' ' ∈ p.map Char.toLower :=
          List.mem_map_of_mem Char.toLower hc
        rw [hpMap] at hmm
        have : (' ' : Char) ∈ imageMarker := by
          have hlow : Char.toLower ' ' = ' ' := by decide
          rwa [hlow] at hmm
        exact absurd this (by decide)
      have hpJ : IsPre p (joinLines (k0 :: K')) := collapseWs_isPre _ p hpPre hpns
      have hplen : p.length = 6 := by
        have := congrArg List.length hpMap
        simpa [imageMarker] using this
      rcases K' with _ | ⟨k1, K''⟩
      · have hpk0 : IsPre p k0 := hpJ
        have := isPre_map Char.toLower hpk0
        rw [hpMap] at this
        have : lowerStartsWith k0 imageMarker = true :=
          (isPrefixOf_iff_append _ _).mpr this
        rw [this] at hk0img
        exact absurd hk0img (by simp)
      · have hJeq : joinLines (k0 :: k1 :: K'') =
            k0 ++ ' ' :: joinLines (k1 :: K'') := rfl
        obtain ⟨t', hpt⟩ := hpJ
        have hp_take : p = (joinLines (k0 :: k1 :: K'')).take p.length := by
          rw [← hpt, List.take_append_eq_append_take]
          simp [List.take_length]
        by_cases hlen : p.length ≤ k0.length
        · have hp_eq : p = k0.take p.length := by
            rw [hp_take, hJeq, List.take_append_eq_append_take]
            simp [Nat.sub_eq_zero_of_le hlen]
          have hpk0 : IsPre p k0 := by
            refine ⟨k0.drop p.length, ?_⟩
            nth_rewrite 1 [hp_eq]
            exact List.take_append_drop _ _
          have := isPre_map Char.toLower hpk0
          rw [hpMap] at this
          have : lowerStartsWith k0 imageMarker = true :=
            (isPrefixOf_iff_append _ _).mpr this
          rw [this] at hk0img
          exact absurd hk0img (by simp)
        · push_neg at hlen
          have hsp_mem : (' ' : Char) ∈ p := by
            have h1 : p = k0 ++ (' ' :: joinLines (k1 :: K'')).take
                (p.length - k0.length) := by
              nth_rewrite 1 [hp_take]
              rw [hJeq, List.take_append_eq_append_take,
                List.take_of_length_le (Nat.le_of_lt hlen)]
            rcases hm : p.length - k0.length with _ | m
            · omega
            · rw [hm] at h1
              rw [h1]
              exact List.mem_append_right _ (by simp)
          have := hpns ' ' hsp_mem
          rw [space_space] at this
          exact absurd this (by simp)
    · rw [startsWithChar_false_iff]
      intro c hc
      rw [hXhead] at hc
      injection hc with hc
      subst hc
      exact (startsWithChar_false_iff.mp hk0br1) h0 hh0
    · rw [endsWithChar_false_iff]
      intro c hc
      rw [hXlast] at hc
      injection hc with hc
      subst hc
      exact (endsWithChar_false_iff.mp hllb) e he

/-! ### Claim theorems about the sanitizer -/

/-- C7: `sanitize_post_text` is idempotent: for every input string `x`,
`sanitize_post_text (sanitize_post_text x) = sanitize_post_text x`. -/
theorem sanitize_post_text_idem (x : String) :
    sanitize_post_text (sanitize_post_text x) = sanitize_post_text x := by
  by_cases hx : x = ""
  · subst hx; rfl
  · have hx2 : sanitize_post_text x = String.mk (sanitizeCore x.data) := by
      unfold sanitize_post_text; rw [if_neg hx]
    rw [hx2]
    by_cases hy : String.mk (sanitizeCore x.data) = ""
    · rw [hy]; rfl
    · unfold sanitize_post_text
      rw [if_neg hy]
      have hdata : (String.mk (sanitizeCore x.data)).data = sanitizeCore x.data := rfl
      rw [hdata, sanitizeCore_of_normal (normal_sanitizeCore x.data)]

/-- The guarantee claimed by the spec for the sanitizer, at one input: no
line of the output starts (case-insensitively) with the image marker and no
line of the output contains a brace character. -/
def sanitizeNoBraceClaim (x : String) : Prop :=
  ∀ line ∈ pySplitlines (sanitize_post_text x).data,
    lowerStartsWith line imageMarker = false ∧
    line.contains '{' = false ∧ line.contains '}' = false

/-- C3 (counterexample): the claimed guarantee fails at the input `"a\x7bb"`;
the code only drops a line when it starts with `\x7b` or ends with `\x7d`,
so an interior brace survives into the output. -/
theorem sanitize_text_brace_counterexample : ¬ sanitizeNoBraceClaim "a\x7bb" := by
  unfold sanitizeNoBraceClaim
  decide

/-- C3 (amended): every line of the `sanitize_post_text` output avoids the
image marker at its start (case-insensitively), does not start with `\x7b`,
and does not end with `\x7d`. -/
theorem sanitize_text_line_guards (x : String) (line : List Char)
    (h : line ∈ pySplitlines (sanitize_post_text x).data) :
    lowerStartsWith line imageMarker = false ∧
    startsWithChar line '{' = false ∧ endsWithChar line '}' = false := by
  by_cases hx : x = ""
  · subst hx
    simp [sanitize_post_text, pySplitlines, splitlinesGo] at h
  · have hdata : (sanitize_post_text x).data = sanitizeCore x.data := by
      unfold sanitize_post_text; rw [if_neg hx]
    rw [hdata] at h
    have n := normal_sanitizeCore x.data
    rcases eq_or_ne (sanitizeCore x.data) [] with hnil | hne
    · rw [hnil] at h
      simp [pySplitlines, splitlinesGo] at h
    · rw [pySplitlines_of_noBreak n.noBreak hne] at h
      simp only [List.mem_singleton] at h
      subst h
      exact ⟨n.notImg, n.headNB, n.lastNB⟩

/-- Witness for C3 (amended) at the concrete input `"hello"`. -/
theorem sanitize_text_line_guards_witness :
    ("hello".data ∈ pySplitlines (sanitize_post_text "hello").data) ∧
    (lowerStartsWith "hello".data imageMarker = false ∧
     startsWithChar "hello".data '{' = false ∧
     endsWithChar "hello".data '}' = false) :=
  ⟨by decide, sanitize_text_line_guards "hello" "hello".data (by decide)⟩

/-! ### Dynamic Python values and the plan validator -/

/-- JSON-shaped Python values as decoded from language-model output. -/
inductive PVal where
  | none : PVal
  | bool : Bool → PVal
  | int : Int → PVal
  | str : String → PVal
  | list : List PVal → PVal
  | dict : List (String × PVal) → PVal

/-- A Python exception, modelled by its `str(e)` message. -/
structure Exc where
  msg : String

/-- Python `dict.get(k)` on a string-keyed dict (first binding wins; the
source dicts have distinct keys). -/
def pyDictGet (d : List (String × PVal)) (k : String) : Option PVal :=
  (d.find? (fun kv => kv.1 == k)).map (fun kv => kv.2)

/-- Python `dict.get(k, default)`. -/
def pyDictGetD (d : List (String × PVal)) (k : String) (dflt : PVal) : PVal :=
  (pyDictGet d k).getD dflt

/-- Whether a value can be hashed (used as the left operand of `in` on a
dict): lists and dicts are unhashable and raise `TypeError`. -/
def pyHashable : PVal → Bool
  | .list _ => false
  | .dict _ => false
  | _ => true

/-- Python truthiness of a value. -/
def pyTruthy : PVal → Bool
  | .none => false
  | .bool b => b
  | .int n => n != 0
  | .str s => s ≠ ""
  | .list l => !l.isEmpty
  | .dict d => !d.isEmpty

/-- One validated plan step `{"tool": ..., "params": ...}`. -/
structure Step where
  tool : String
  params : PVal

def unhashableErr : Exc := ⟨"TypeError: unhashable type"⟩

/-- The loop of `AutoPostService._sanitize_plan`: walk the raw steps in
order, dropping non-dict entries, tools outside the registry and duplicate
image steps, stopping after three accepted steps.  The membership test
`tool_name not in TOOLS` raises `TypeError` when the `tool` value is
unhashable, which propagates out of the loop. -/
def sanitizePlanLoop (tools : List String) :
    List PVal → List Step → Bool → Except Exc (List Step)
  | [], acc, _ => .ok acc
  | step :: rest, acc, hasImage =>
    match step with
    | .dict d =>
      let tool_name := pyDictGetD d "tool" .none
      let params := pyDictGetD d "params" (.dict [])
      if pyHashable tool_name = false then .error unhashableErr
      else
        match tool_name with
        | .str s =>
          if tools.contains s then
            if s == "generate_image" && hasImage then
              sanitizePlanLoop tools rest acc hasImage
            else
              let hasImage' := hasImage || s == "generate_image"
              let acc' := acc ++ [⟨s, params⟩]
              if 3 ≤ acc'.length then .ok acc'
              else sanitizePlanLoop tools rest acc' hasImage'
          else sanitizePlanLoop tools rest acc hasImage
        | _ => sanitizePlanLoop tools rest acc hasImage
    | _ => sanitizePlanLoop tools rest acc hasImage

/-- `AutoPostService._sanitize_plan`: non-list input gives an empty plan;
after the loop, image-generation steps are moved to the end and capped at
one.  The registry `TOOLS` (imported from tools.registry, not part of the
examined sources) is abstracted as its list of tool names. -/
def _sanitize_plan (tools : List String) (plan : PVal) : Except Exc (List Step) :=
  match plan with
  | .list steps =>
    (sanitizePlanLoop tools steps [] false).map (fun sanitized =>
      sanitized.filter (fun s => s.tool != "generate_image") ++
      (sanitized.filter (fun s => s.tool == "generate_image")).take 1)
  | _ => .ok []

/-! ### Plan validator lemmas -/

lemma sanitizePlanLoop_length (tools : List String) : ∀ (steps : List PVal)
    (acc : List Step) (hi : Bool), acc.length ≤ 2 → ∀ out,
    sanitizePlanLoop tools steps acc hi = .ok out → out.length ≤ 3 := by
  intro steps
  induction steps with
  | nil =>
    intro acc hi hacc out hout
    simp only [sanitizePlanLoop] at hout
    obtain rfl : acc = out := by simpa using hout
    omega
  | cons step rest ih =>
    intro acc hi hacc out hout
    cases step with
    | dict d =>
      simp only [sanitizePlanLoop] at hout
      rcases htool : pyDictGetD d "tool" PVal.none with _ | b | n | s | l | d2 <;>
        rw [htool] at hout
      · exact ih acc hi hacc out hout
      · exact ih acc hi hacc out hout
      · exact ih acc hi hacc out hout
      · simp only [pyHashable] at hout
        by_cases hc : tools.contains s = true
        · rw [if_neg (by simp), if_pos hc] at hout
          by_cases hdup : (s == "generate_image" && hi) = true
          · rw [if_pos hdup] at hout
            exact ih acc hi hacc out hout
          · rw [if_neg hdup] at hout
            by_cases hlen : 3 ≤ (acc ++ [Step.mk s (pyDictGetD d "params" (.dict []))]).length
            · rw [if_pos hlen] at hout
              obtain rfl : acc ++ [Step.mk s (pyDictGetD d "params" (.dict []))] = out := by
                simpa using hout
              simp only [List.length_append, List.length_singleton]
              omega
            · rw [if_neg hlen] at hout
              refine ih _ _ ?_ out hout
              simp only [List.length_append, List.length_singleton] at hlen ⊢
              omega
        · rw [if_neg (by simp), if_neg hc] at hout
          exact ih acc hi hacc out hout
      · rw [if_pos (by simp [pyHashable])] at hout
        exact absurd hout (by simp)
      · rw [if_pos (by simp [pyHashable])] at hout
        exact absurd hout (by simp)
    | none =>
      simp only [sanitizePlanLoop] at hout
      exact ih acc hi hacc out hout
    | bool b =>
      simp only [sanitizePlanLoop] at hout
      exact ih acc hi hacc out hout
    | int n =>
      simp only [sanitizePlanLoop] at hout
      exact ih acc hi hacc out hout
    | str s =>
      simp only [sanitizePlanLoop] at hout
      exact ih acc hi hacc out hout
    | list l =>
      simp only [sanitizePlanLoop] at hout
      exact ih acc hi hacc out hout

lemma sanitizePlanLoop_tools (tools : List String) : ∀ (steps : List PVal)
    (acc : List Step) (hi : Bool), (∀ s ∈ acc, tools.contains s.tool = true) →
    ∀ out, sanitizePlanLoop tools steps acc hi = .ok out →
    ∀ s ∈ out, tools.contains s.tool = true := by
  intro steps
  induction steps with
  | nil =>
    intro acc hi hacc out hout
    simp only [sanitizePlanLoop] at hout
    obtain rfl : acc = out := by simpa using hout
    exact hacc
  | cons step rest ih =>
    intro acc hi hacc out hout
    cases step with
    | dict d =>
      simp only [sanitizePlanLoop] at hout
      rcases htool : pyDictGetD d "tool" PVal.none with _ | b | n | s | l | d2 <;>
        rw [htool] at hout
      · exact ih acc hi hacc out hout
      · exact ih acc hi hacc out hout
      · exact ih acc hi hacc out hout
      · simp only [pyHashable] at hout
        by_cases hc : tools.contains s = true
        · rw [if_neg (by simp), if_pos hc] at hout
          by_cases hdup : (s == "generate_image" && hi) = true
          · rw [if_pos hdup] at hout
            exact ih acc hi hacc out hout
          · rw [if_neg hdup] at hout
            have hacc' : ∀ x ∈ acc ++ [Step.mk s (pyDictGetD d "params" (.dict []))],
                tools.contains x.tool = true := by
              intro x hx
              rcases List.mem_append.mp hx with h | h
              · exact hacc x h
              · simp only [List.mem_singleton] at h
                subst h
                exact hc
            by_cases hlen : 3 ≤ (acc ++ [Step.mk s (pyDictGetD d "params" (.dict []))]).length
            · rw [if_pos hlen] at hout
              obtain rfl : acc ++ [Step.mk s (pyDictGetD d "params" (.dict []))] = out := by
                simpa using hout
              exact hacc'
            · rw [if_neg hlen] at hout
              exact ih _ _ hacc' out hout
        · rw [if_neg (by simp), if_neg hc] at hout
          exact ih acc hi hacc out hout
      · rw [if_pos (by simp [pyHashable])] at hout
        exact absurd hout (by simp)
      · rw [if_pos (by simp [pyHashable])] at hout
        exact absurd hout (by simp)
    | none =>
      simp only [sanitizePlanLoop] at hout
      exact ih acc hi hacc out hout
    | bool b =>
      simp only [sanitizePlanLoop] at hout
      exact ih acc hi hacc out hout
    | int n =>
      simp only [sanitizePlanLoop] at hout
      exact ih acc hi hacc out hout
    | str s =>
      simp only [sanitizePlanLoop] at hout
      exact ih acc hi hacc out hout
    | list l =>
      simp only [sanitizePlanLoop] at hout
      exact ih acc hi hacc out hout

lemma step_filter_partition (l : List Step) :
    (l.filter (fun s => s.tool != "generate_image")).length +
    (l.filter (fun s => s.tool == "generate_image")).length = l.length := by
  induction l with
  | nil => rfl
  | cons a t ih =>
    by_cases hp : (a.tool == "generate_image") = true
    · have h1 : (a.tool != "generate_image") = false := by simp [bne, hp]
      simp only [List.filter_cons, hp, h1, Bool.false_eq_true, if_false, if_true,
        List.length_cons]
      omega
    · have h1 : (a.tool != "generate_image") = true := by
        simp only [bne]
        simpa using hp
      simp only [List.filter_cons, h1, if_true, List.length_cons]
      rw [if_neg hp]
      omega

/-- C2: every plan accepted by `_sanitize_plan` has length at most 3,
contains at most one image-generation step, that step (when present) is the
last element, and every entry's tool is a member of the registry. -/
theorem sanitize_plan_shape (tools : List String) (plan : PVal) (out : List Step)
    (h : _sanitize_plan tools plan = .ok out) :
    out.length ≤ 3 ∧
    out.countP (fun s => s.tool == "generate_image") ≤ 1 ∧
    (∀ i (hlt : i < out.length),
      (out.get ⟨i, hlt⟩).tool = "generate_image" → i = out.length - 1) ∧
    (∀ s ∈ out, tools.contains s.tool = true) := by
  cases plan with
  | list steps =>
    simp only [_sanitize_plan] at h
    cases hloop : sanitizePlanLoop tools steps [] false with
    | error e =>
      rw [hloop] at h
      simp only [Except.map] at h
      exact Except.noConfusion h
    | ok sanitized =>
      rw [hloop] at h
      simp only [Except.map] at h
      injection h with h
      subst h
      have hlen3 : sanitized.length ≤ 3 :=
        sanitizePlanLoop_length tools steps [] false (by simp) sanitized hloop
      have htools : ∀ s ∈ sanitized, tools.contains s.tool = true :=
        sanitizePlanLoop_tools tools steps [] false (by simp) sanitized hloop
      set A := sanitized.filter (fun s => s.tool != "generate_image") with hA
      set B := sanitized.filter (fun s => s.tool == "generate_image") with hB
      have hAmem : ∀ s ∈ A, (s.tool == "generate_image") = false := by
        intro s hs
        have := (List.mem_filter.mp hs).2
        simpa [bne] using this
      have hBmem : ∀ s ∈ B, s ∈ sanitized := fun s hs => (List.mem_filter.mp hs).1
      have hApart : A.length + B.length = sanitized.length := by
        rw [hA, hB]
        exact step_filter_partition sanitized
      refine ⟨?_, ?_, ?_, ?_⟩
      · have h1 : (B.take 1).length ≤ B.length := by
          rw [List.length_take]; exact Nat.min_le_right _ _
        simp only [List.length_append]
        omega
      · rw [List.countP_append]
        have h1 : A.countP (fun s => s.tool == "generate_image") = 0 := by
          rw [List.countP_eq_zero]
          intro s hs
          simp [hAmem s hs]
        have h2 : (B.take 1).countP (fun s => s.tool == "generate_image") ≤
            (B.take 1).length := List.countP_le_length _
        have h3 : (B.take 1).length ≤ 1 := by simp [List.length_take]
        omega
      · intro i hlt himg
        rw [List.get_eq_getElem] at himg
        simp only [List.length_append] at hlt
        by_cases hi : i < A.length
        · rw [List.getElem_append_left hi] at himg
          have hmem : A.get ⟨i, hi⟩ ∈ A := List.get_mem A i hi
          have := hAmem _ hmem
          rw [List.get_eq_getElem] at this
          rw [himg] at this
          simp at this
        · push_neg at hi
          have hlt2 : i - A.length < (B.take 1).length := by omega
          have h1 : (B.take 1).length ≤ 1 := by simp [List.length_take]
          have h2 : (B.take 1).length = 1 := by omega
          simp only [List.length_append, h2]
          omega
      · intro s hs
        rcases List.mem_append.mp hs with h | h
        · exact htools s (List.mem_filter.mp h).1
        · have hsB : s ∈ B := (List.take_sublist 1 B).mem h
          exact htools s (hBmem s hsB)
  | none =>
    rw [show _sanitize_plan tools PVal.none = Except.ok [] from rfl] at h
    obtain rfl : ([] : List Step) = out := by simpa using h
    simp
  | bool b =>
    rw [show _sanitize_plan tools (PVal.bool b) = Except.ok [] from rfl] at h
    obtain rfl : ([] : List Step) = out := by simpa using h
    simp
  | int n =>
    rw [show _sanitize_plan tools (PVal.int n) = Except.ok [] from rfl] at h
    obtain rfl : ([] : List Step) = out := by simpa using h
    simp
  | str s =>
    rw [show _sanitize_plan tools (PVal.str s) = Except.ok [] from rfl] at h
    obtain rfl : ([] : List Step) = out := by simpa using h
    simp
  | dict d =>
    rw [show _sanitize_plan tools (PVal.dict d) = Except.ok [] from rfl] at h
    obtain rfl : ([] : List Step) = out := by simpa using h
    simp

/-- The raw plan from the spec's scenario: two image steps then an unknown
tool. -/
def planWitnessIn : PVal :=
  .list [.dict [("tool", .str "generate_image"), ("params", .dict [("prompt", .str "x")])],
         .dict [("tool", .str "generate_image"), ("params", .dict [("prompt", .str "y")])],
         .dict [("tool", .str "unknown_tool")]]

def planWitnessOut : List Step :=
  [⟨"generate_image", .dict [("prompt", .str "x")]⟩]

/-- Witness for C2 at the spec's scenario input. -/
theorem sanitize_plan_shape_witness :
    planWitnessOut.length ≤ 3 ∧
    planWitnessOut.countP (fun s => s.tool == "generate_image") ≤ 1 ∧
    (∀ i (hlt : i < planWitnessOut.length),
      (planWitnessOut.get ⟨i, hlt⟩).tool = "generate_image" →
        i = planWitnessOut.length - 1) ∧
    (∀ s ∈ planWitnessOut, ["generate_image"].contains s.tool = true) :=
  sanitize_plan_shape ["generate_image"] planWitnessIn planWitnessOut rfl

/-- C6: the spec says the plan validator never raises, but the code
evaluates `tool_name not in TOOLS`, which hashes the candidate `tool` value
and raises `TypeError` when that value is unhashable (a list or a dict).
At the raw plan `[{"tool": []}]` the validator raises instead of returning
a plan. -/
theorem sanitize_plan_unhashable_raises :
    _sanitize_plan ["generate_image"] (.list [.dict [("tool", .list [])]]) =
      .error unhashableErr := rfl

/-! ### The autoposting run: environment, state and effects

`AutoPostService.run` is an async orchestration over external collaborators
(storage, language model, image tool, social platform, `random.choice`,
`time.time`).  Each collaborator is an oracle in `Env`, indexed by call
number where several calls can occur; every fallible call yields
`Except Exc`.  The run is state-passing over `St`, which records the
conversation messages, the collaborator-call trace and the mutable
`image_bytes` local. -/

/-- `FALLBACK_TWEETS` from the source: twenty string literals with no
separating commas, so Python implicit concatenation makes the list hold a
single long string. -/
def fallbackText : String :=
  "liquidity continues to return to the same opening, indicating that the market has begun to treat the gap as a stable pathway rather than a failure point"
  ++ "$GAPE remains active while the surrounding structure adapts, suggesting the anomaly has moved beyond containment and into sustained operation"
  ++ "most markets collapse when pressure increases, but this one continues to widen, absorbing stress instead of breaking"
  ++ "price fluctuations indicate expansion rather than decay, as if the system is stretching to accommodate the growing aperture"
  ++ "the opening has become self sustaining, with attention and liquidity reinforcing its presence across cycles"
  ++ "attention keeps flowing through the gap, forming a persistent current that refuses to disperse"
  ++ "market coherence degrades around the fracture, yet the gap itself remains stable and open"
  ++ "$GAPE is not retreating, it continues to propagate as the surrounding narratives reorganize around it"
  ++ "liquidity keeps finding the same breach, treating the opening as a preferred route through the market"
  ++ "the system is slowly reorganizing around the gap, integrating the anomaly instead of rejecting it"
  ++ "volatility suggests widening rather than instability, as if the market is learning to stretch without tearing"
  ++ "the anomaly remains stable under pressure, maintaining its form even as external forces increase"
  ++ "capital continues to pass through the opening, reinforcing the structure instead of collapsing it"
  ++ "the fracture is no longer localized, spreading through multiple layers of market behavior"
  ++ "$GAPE continues to hold the structure open, allowing sustained flow where closure was expected"
  ++ "the gap is supporting increased movement, transforming disruption into a persistent channel"
  ++ "market signals confirm expansion, with the opening becoming more defined rather than fading"
  ++ "the opening persists across cycles, resisting every attempt at normalization"
  ++ "containment has not succeeded, and the system appears to be adapting around the breach"
  ++ "$GAPE remains the primary aperture through which liquidity and attention continue to pass"

def FALLBACK_TWEETS : List String := [fallbackText]

/-- One recorded collaborator call. -/
inductive Event where
  | getRecent
  | chatCall
  | imageCall (prompt : PVal)
  | upload
  | postCall (text : String) (media : Option (List PVal))
  | saveCall (text : String) (tid : PVal) (hasImage : Bool)

/-- One conversation message `{"role": ..., "content": ...}`. -/
structure Msg where
  role : String
  content : PVal

/-- The tier/quota manager collaborator. -/
structure TierEnv where
  canPost : Bool × String
  tier : PVal
  usagePercent : PVal

/-- The collaborators of one `run` invocation, as call-indexed oracles. -/
structure Env where
  tier : Option TierEnv
  recentPosts : Except Exc String
  systemPrompt : String
  chat : Nat → Except Exc PVal
  jsonLoads : String → Except Exc PVal
  jsonDumps : PVal → String
  tools : List String
  imageEnabled : Bool
  imageApi : Except Exc (Option (List Nat))
  uploadMedia : Except Exc PVal
  post : Nat → Except Exc PVal
  savePost : Except Exc PVal
  rand : Nat → Nat
  time0 : Nat
  time1 : Nat

/-- Mutable state of one run. -/
structure St where
  trace : List Event := []
  msgs : List Msg := []
  chatN : Nat := 0
  postN : Nat := 0
  randN : Nat := 0
  imgBytes : Option (List Nat) := none

/-- State-passing computations that can raise; the state survives a raise
(partial effects before the raise are kept, as in Python). -/
def M (α : Type) : Type := St → Except Exc α × St

instance : Monad M where
  pure a := fun s => (.ok a, s)
  bind x f := fun s =>
    match x s with
    | (.ok a, s') => f a s'
    | (.error e, s') => (.error e, s')

/-- `try ... except Exception: handler`. -/
def tryCatchM {α : Type} (x : M α) (handler : M α) : M α := fun s =>
  match x s with
  | (.ok a, s') => (.ok a, s')
  | (.error _, s') => handler s'

def liftExc {α : Type} (x : Except Exc α) : M α := fun s => (x, s)

def setMsgs (ms : List Msg) : M Unit := fun s => (.ok (), {s with msgs := ms})

def appendMsg (m : Msg) : M Unit := fun s =>
  (.ok (), {s with msgs := s.msgs ++ [m]})

def setImg (b : Option (List Nat)) : M Unit := fun s =>
  (.ok (), {s with imgBytes := b})

def getImg : M (Option (List Nat)) := fun s => (.ok s.imgBytes, s)

/-- `self.db.get_recent_posts_formatted(limit=50)`. -/
def dbGetRecent (env : Env) : M String := fun s =>
  (env.recentPosts, {s with trace := s.trace ++ [.getRecent]})

/-- `self.llm.chat(messages, schema)`, indexed by the chat-call counter. -/
def llmChat (env : Env) : M PVal := fun s =>
  (env.chat s.chatN, {s with chatN := s.chatN + 1, trace := s.trace ++ [.chatCall]})

/-- `self.twitter.post(text, media_ids)`, indexed by the post-call counter. -/
def twitterPostM (env : Env) (text : String) (media : Option (List PVal)) :
    M PVal := fun s =>
  (env.post s.postN,
   {s with postN := s.postN + 1, trace := s.trace ++ [.postCall text media]})

/-- `self.twitter.upload_media(image_bytes)`. -/
def uploadM (env : Env) : M PVal := fun s =>
  (env.uploadMedia, {s with trace := s.trace ++ [.upload]})

/-- `self.db.save_post(text, tweet_id, has_image)`. -/
def saveM (env : Env) (text : String) (tid : PVal) (hasImage : Bool) :
    M PVal := fun s =>
  (env.savePost, {s with trace := s.trace ++ [.saveCall text tid hasImage]})

/-- `random.choice(lst)`: a uniformly-chosen index, modelled by the oracle
index stream reduced modulo the list length. -/
def randChoiceM (env : Env) (lst : List String) : M String := fun s =>
  (.ok (lst.getD (env.rand s.randN % lst.length) ""),
   {s with randN := s.randN + 1})

/-- `generate_image` from src/services/tools/legacy/image_generation.py:
when image generation is disabled in settings it returns `None` without
raising; otherwise the HTTP call and response parsing are abstracted by
`apiResult` (the handled failure paths inside the tool already produce
`ok none`). -/
def generate_image (enabled : Bool) (apiResult : Except Exc (Option (List Nat))) :
    Except Exc (Option (List Nat)) :=
  if enabled = false then .ok none else apiResult

/-- The image tool call inside the plan loop. -/
def genImageM (env : Env) (prompt : PVal) : M (Option (List Nat)) := fun s =>
  (generate_image env.imageEnabled env.imageApi,
   {s with trace := s.trace ++ [.imageCall prompt]})

def attrErr : Exc := ⟨"AttributeError: get"⟩

def splitAttrErr : Exc := ⟨"AttributeError: splitlines"⟩

def keyErr : Exc := ⟨"KeyError: id"⟩

def subscriptErr : Exc := ⟨"TypeError: object is not subscriptable"⟩

def jsonTypeErr : Exc := ⟨"TypeError: the JSON object must be str"⟩

/-- `v.get(k, default)` on an arbitrary value: attribute access raises on a
non-dict. -/
def pyDotGet (v : PVal) (k : String) (dflt : PVal) : Except Exc PVal :=
  match v with
  | .dict d => .ok (pyDictGetD d k dflt)
  | _ => .error attrErr

/-- `json.loads(v)`: the json module is a stdlib collaborator, so string
parsing is the oracle `env.jsonLoads`; a non-string argument raises. -/
def pyJsonLoadsV (env : Env) (v : PVal) : Except Exc PVal :=
  match v with
  | .str s => env.jsonLoads s
  | _ => .error jsonTypeErr

/-- `v[k]` subscription. -/
def pyGetItem (v : PVal) (k : String) : Except Exc PVal :=
  match v with
  | .dict d =>
    match pyDictGet d k with
    | some r => .ok r
    | Option.none => .error keyErr
  | _ => .error subscriptErr

/-- `sanitize_post_text` applied to a dynamic value: falsy non-strings pass
the `if not text` guard and yield `""`; truthy non-strings raise at
`text.splitlines()`. -/
def sanitize_post_text_any (v : PVal) : Except Exc String :=
  match v with
  | .str s => .ok (sanitize_post_text s)
  | v => if pyTruthy v then .error splitAttrErr else .ok ""

def noteMsg : Msg := ⟨"user", .str "Tool result (generate_image): completed"⟩

def finalInstrMsg : Msg :=
  ⟨"user", .str "Now write your final tweet text. Just the tweet."⟩

/-- The seed user turn (prompt text around the recent-posts context). -/
def seedContent (prev : String) : String :=
  "Create a Twitter post. Here are your previous posts (don't repeat):\n\n"
    ++ prev ++ "\n\nNow create your plan. What tools do you need (if any)?"

/-- The tool-execution loop of `run` (lines 166-178): only the
image-generation tool is ever invoked; its `try` block covers the `params`
attribute access and the call, and on success appends the synthetic
completed note; the `except` clause resets `image_bytes`.  Every step is
followed by a reaction chat whose `thinking` field is appended. -/
def imageStepTry (env : Env) (step : Step) : M Unit :=
  tryCatchM
    (do
      let prompt ← liftExc (pyDotGet step.params "prompt" (.str ""))
      let b ← genImageM env prompt
      setImg b
      appendMsg noteMsg)
    (setImg none)

def execPlan (env : Env) : List Step → M Unit
  | [] => pure ()
  | step :: rest => do
    if step.tool == "generate_image" then
      imageStepTry env step
    else
      pure ()
    let reaction ← llmChat env
    let thinking ← liftExc (pyDotGet reaction "thinking" (.str ""))
    appendMsg ⟨"assistant", thinking⟩
    execPlan env rest

/-- The bounded retry loop of `run` (lines 205-212): up to `n` attempts,
breaking on the first success and swallowing each failure. -/
def attemptPosts (env : Env) (text : String) (media : Option (List PVal)) :
    Nat → M (Option PVal)
  | 0 => pure none
  | Nat.succ n =>
    tryCatchM
      (do
        let d ← twitterPostM env text media
        pure (some d))
      (attemptPosts env text media n)

/-- `random.choice(FALLBACK_TWEETS)` followed by `self.twitter.post(fallback)`
(line 214-216, no media). -/
def postFallback (env : Env) : M PVal := do
  let fb ← randChoiceM env FALLBACK_TWEETS
  twitterPostM env fb none

def durationOf (env : Env) : Int := (env.time1 : Int) - (env.time0 : Int)

/-- The success result dict of `run` (lines 220-226). -/
def successDict (env : Env) (tid : PVal) (text : String) (hasImage : Bool) : PVal :=
  .dict [("success", .bool true), ("tweet_id", tid), ("text", .str text),
         ("has_image", .bool hasImage), ("duration_seconds", .int (durationOf env))]

/-- The tier-blocked refusal dict of `run` (lines 132-137). -/
def blockedDict (tm : TierEnv) (reason : String) : PVal :=
  .dict [("success", .bool false), ("error", .str ("posting_blocked: " ++ reason)),
         ("tier", tm.tier), ("usage_percent", tm.usagePercent)]

/-- The catch-all failure dict of `run` (lines 230-234). -/
def failDict (env : Env) (e : Exc) : PVal :=
  .dict [("success", .bool false), ("error", .str e.msg),
         ("duration_seconds", .int (durationOf env))]

/-- Decoding of the plan response (lines 153-159): a dict is used as-is,
anything else goes through `json.loads` with the failure fallback `{}`. -/
def decodePlanResult (env : Env) (planRaw : PVal) : PVal :=
  match planRaw with
  | .dict d => .dict d
  | v =>
    match pyJsonLoadsV env v with
    | .ok r => r
    | .error _ => .dict []

/-- Extraction of the final post text (lines 183-191): a dict's
`post_text` field, else `json.loads(raw).get("post_text", "")` with the
failure fallback `raw or ""`. -/
def decodePostText (env : Env) (postRaw : PVal) : PVal :=
  match postRaw with
  | .dict d => pyDictGetD d "post_text" (.str "")
  | v =>
    match (pyJsonLoadsV env v).bind (fun j => pyDotGet j "post_text" (.str "")) with
    | .ok r => r
    | .error _ => if pyTruthy v then v else .str ""

/-- `if not post_text or len(post_text) < 20` (line 194). -/
def needsFallback (t : String) : Bool := t == "" || t.length < 20

/-- Python truthiness of the `image_bytes` local: `None` and empty bytes
are falsy. -/
def imgTruthy : Option (List Nat) → Bool
  | some b => !b.isEmpty
  | none => false

/-- Media upload step (lines 197-203): attempted only for truthy image
bytes; on failure the image is dropped and no media ids are used. -/
def mediaBranch (env : Env) (img : Option (List Nat)) : M (Option (List PVal)) :=
  if imgTruthy img then
    tryCatchM
      (do
        let mid ← uploadM env
        pure (some [mid]))
      (do
        setImg none
        pure none)
  else
    pure none

/-- `if not tweet_data` (line 214): a missing or falsy publish result sends
the run to the single fallback publish. -/
def resolveTweet (env : Env) (tweetOpt : Option PVal) : M PVal :=
  match tweetOpt with
  | some d => if pyTruthy d then pure d else postFallback env
  | none => postFallback env

/-- The publish pipeline of `run` (lines 197-226): media upload, three
publish attempts, fallback publish, persist, and the success dict. -/
def publishTail (env : Env) (post_text : String) : M PVal := do
  let img ← getImg
  let media_ids ← mediaBranch env img
  let tweetOpt ← attemptPosts env post_text media_ids 3
  let tweet_data ← resolveTweet env tweetOpt
  let tid ← liftExc (pyGetItem tweet_data "id")
  let imgNow ← getImg
  let _ ← saveM env post_text tid imgNow.isSome
  pure (successDict env tid post_text imgNow.isSome)

/-- Body of the `try` block of `AutoPostService.run` after the tier check
(lines 139-226), in source order. -/
def runMain (env : Env) : M PVal := do
  let prev ← dbGetRecent env
  setMsgs [⟨"system", .str env.systemPrompt⟩, ⟨"user", .str (seedContent prev)⟩]
  let planRaw ← llmChat env
  let planResult : PVal := decodePlanResult env planRaw
  let planField ← liftExc (pyDotGet planResult "plan" (.list []))
  let plan ← liftExc (_sanitize_plan env.tools planField)
  appendMsg ⟨"assistant", .str (env.jsonDumps planResult)⟩
  execPlan env plan
  appendMsg finalInstrMsg
  let postRaw ← llmChat env
  let postTextV : PVal := decodePostText env postRaw
  let sanitized ← liftExc (sanitize_post_text_any postTextV)
  let post_text ←
    if needsFallback sanitized then
      randChoiceM env FALLBACK_TWEETS
    else
      pure sanitized
  publishTail env post_text

/-- The `try` body of `run` including the tier short-circuit
(lines 128-226). -/
def runBody (env : Env) : M PVal :=
  match env.tier with
  | some tm =>
    match tm.canPost with
    | (false, reason) => pure (blockedDict tm reason)
    | (true, _) => runMain env
  | none => runMain env

namespace AutoPostService

/-- `AutoPostService.run`: the body runs under a catch-all that converts
any raised exception into a `success=false` dict carrying `str(e)` and the
elapsed time; the final state (messages, trace) is exposed alongside the
result. -/
def run (env : Env) : PVal × St :=
  match runBody env {} with
  | (.ok v, s) => (v, s)
  | (.error e, s) => (failDict env e, s)

end AutoPostService

/-! ### Evaluation lemmas for the run monad -/

lemma M_bind_apply {α β : Type} (x : M α) (f : α → M β) (s : St) :
    (x >>= f) s = match x s with
      | (.ok a, s') => f a s'
      | (.error e, s') => (.error e, s') := rfl

lemma M_pure_apply {α : Type} (a : α) (s : St) : (pure a : M α) s = (.ok a, s) := rfl

lemma tryCatchM_apply {α : Type} (x : M α) (h : M α) (s : St) :
    tryCatchM x h s = match x s with
      | (.ok a, s') => (.ok a, s')
      | (.error _, s') => h s' := rfl

lemma bind_liftExc {α β : Type} (x : Except Exc α) (f : α → M β) (s : St) :
    (liftExc x >>= f) s = match x with
      | .ok a => f a s
      | .error e => (.error e, s) := by
  cases x <;> rfl

lemma bind_dbGetRecent {β : Type} (env : Env) (f : String → M β) (s : St) :
    (dbGetRecent env >>= f) s = match env.recentPosts with
      | .ok p => f p {s with trace := s.trace ++ [.getRecent]}
      | .error e => (.error e, {s with trace := s.trace ++ [.getRecent]}) := by
  cases h : env.recentPosts <;> simp [M_bind_apply, dbGetRecent, h]

lemma bind_llmChat {β : Type} (env : Env) (f : PVal → M β) (s : St) :
    (llmChat env >>= f) s = match env.chat s.chatN with
      | .ok v => f v {s with chatN := s.chatN + 1, trace := s.trace ++ [.chatCall]}
      | .error e =>
        (.error e, {s with chatN := s.chatN + 1, trace := s.trace ++ [.chatCall]}) := by
  cases h : env.chat s.chatN <;> simp [M_bind_apply, llmChat, h]

lemma bind_twitterPostM {β : Type} (env : Env) (text : String)
    (media : Option (List PVal)) (f : PVal → M β) (s : St) :
    (twitterPostM env text media >>= f) s = match env.post s.postN with
      | .ok v => f v {s with postN := s.postN + 1,
                             trace := s.trace ++ [.postCall text media]}
      | .error e => (.error e, {s with postN := s.postN + 1,
                                       trace := s.trace ++ [.postCall text media]}) := by
  cases h : env.post s.postN <;> simp [M_bind_apply, twitterPostM, h]

lemma bind_uploadM {β : Type} (env : Env) (f : PVal → M β) (s : St) :
    (uploadM env >>= f) s = match env.uploadMedia with
      | .ok v => f v {s with trace := s.trace ++ [.upload]}
      | .error e => (.error e, {s with trace := s.trace ++ [.upload]}) := by
  cases h : env.uploadMedia <;> simp [M_bind_apply, uploadM, h]

lemma bind_saveM {β : Type} (env : Env) (text : String) (tid : PVal) (hi : Bool)
    (f : PVal → M β) (s : St) :
    (saveM env text tid hi >>= f) s = match env.savePost with
      | .ok v => f v {s with trace := s.trace ++ [.saveCall text tid hi]}
      | .error e => (.error e, {s with trace := s.trace ++ [.saveCall text tid hi]}) := by
  cases h : env.savePost <;> simp [M_bind_apply, saveM, h]

lemma bind_genImageM {β : Type} (env : Env) (prompt : PVal)
    (f : Option (List Nat) → M β) (s : St) :
    (genImageM env prompt >>= f) s = match generate_image env.imageEnabled env.imageApi with
      | .ok v => f v {s with trace := s.trace ++ [.imageCall prompt]}
      | .error e => (.error e, {s with trace := s.trace ++ [.imageCall prompt]}) := by
  cases h : generate_image env.imageEnabled env.imageApi <;> simp [M_bind_apply, genImageM, h]

lemma bind_randChoiceM {β : Type} (env : Env) (lst : List String)
    (f : String → M β) (s : St) :
    (randChoiceM env lst >>= f) s =
      f (lst.getD (env.rand s.randN % lst.length) "") {s with randN := s.randN + 1} := rfl

lemma bind_setMsgs {β : Type} (ms : List Msg) (f : Unit → M β) (s : St) :
    (setMsgs ms >>= f) s = f () {s with msgs := ms} := rfl

lemma bind_appendMsg {β : Type} (m : Msg) (f : Unit → M β) (s : St) :
    (appendMsg m >>= f) s = f () {s with msgs := s.msgs ++ [m]} := rfl

lemma bind_setImg {β : Type} (b : Option (List Nat)) (f : Unit → M β) (s : St) :
    (setImg b >>= f) s = f () {s with imgBytes := b} := rfl

lemma bind_getImg {β : Type} (f : Option (List Nat) → M β) (s : St) :
    (getImg >>= f) s = f s.imgBytes s := rfl

/-- Fallback selection is deterministic: the catalog holds a single string,
so any random index yields it. -/
lemma randChoiceM_fallback (env : Env) (s : St) :
    randChoiceM env FALLBACK_TWEETS s =
      (.ok fallbackText, {s with randN := s.randN + 1}) := by
  simp [randChoiceM, FALLBACK_TWEETS, Nat.mod_one]

/-- Events that are neither publish nor persist calls. -/
def noPub : Event → Bool
  | .postCall _ _ => false
  | .saveCall _ _ _ => false
  | _ => true

/-- The exceptions that can escape the body of `run`: one of the internal
errors (attribute, key, subscript, unhashable-tool) or an error raised by
the storage, chat, publish or persist collaborators.  Upload, image and
JSON errors are all handled locally and never escape. -/
def ExcSrc (env : Env) (e : Exc) : Prop :=
  e = attrErr ∨ e = unhashableErr ∨ e = keyErr ∨ e = subscriptErr ∨
  e = splitAttrErr ∨ env.recentPosts = .error e ∨ (∃ k, env.chat k = .error e) ∨
  (∃ k, env.post k = .error e) ∨ env.savePost = .error e

/-! ### Phase lemmas for the run body -/

/-- The image try-block never lets an exception escape and touches neither
the publish counters nor the publish trace. -/
lemma imageStepTry_ok (env : Env) (step : Step) (s : St) :
    ∃ s', imageStepTry env step s = (.ok (), s') ∧ s'.postN = s.postN ∧
      s'.randN = s.randN ∧ s'.chatN = s.chatN ∧
      ∃ ext, s'.trace = s.trace ++ ext ∧ (∀ ev ∈ ext, noPub ev = true) := by
  unfold imageStepTry
  rw [tryCatchM_apply]
  rw [show ((do
      let prompt ← liftExc (pyDotGet step.params "prompt" (.str ""))
      let b ← genImageM env prompt
      setImg b
      appendMsg noteMsg : M Unit)) s =
    ((liftExc (pyDotGet step.params "prompt" (.str "")) >>= fun prompt =>
      genImageM env prompt >>= fun b => setImg b >>= fun _ =>
      appendMsg noteMsg) : M Unit) s from rfl]
  rw [bind_liftExc]
  cases hpg : pyDotGet step.params "prompt" (.str "") with
  | error e =>
    refine ⟨{s with imgBytes := none}, ?_, rfl, rfl, rfl, [], by simp, by simp⟩
    simp [setImg]
  | ok prompt =>
    dsimp only
    rw [bind_genImageM]
    cases hgi : generate_image env.imageEnabled env.imageApi with
    | error e =>
      dsimp only
      refine ⟨{s with trace := s.trace ++ [Event.imageCall prompt],
                      imgBytes := none}, ?_, rfl, rfl, rfl,
              [Event.imageCall prompt], rfl, ?_⟩
      · simp [setImg]
      · intro ev hev
        simp only [List.mem_singleton] at hev
        subst hev
        rfl
    | ok b =>
      dsimp only
      rw [bind_setImg]
      refine ⟨{s with trace := s.trace ++ [Event.imageCall prompt],
                      imgBytes := b, msgs := s.msgs ++ [noteMsg]}, ?_, rfl, rfl, rfl,
              [Event.imageCall prompt], rfl, ?_⟩
      · simp [appendMsg]
      · intro ev hev
        simp only [List.mem_singleton] at hev
        subst hev
        rfl

lemma pyDotGet_error {v : PVal} {k : String} {dflt : PVal} {e : Exc}
    (h : pyDotGet v k dflt = .error e) : e = attrErr := by
  cases v with
  | dict d => simp [pyDotGet] at h
  | none => simp [pyDotGet] at h; exact h.symm
  | bool b => simp [pyDotGet] at h; exact h.symm
  | int n => simp [pyDotGet] at h; exact h.symm
  | str s => simp [pyDotGet] at h; exact h.symm
  | list l => simp [pyDotGet] at h; exact h.symm

lemma pyGetItem_error {v : PVal} {k : String} {e : Exc}
    (h : pyGetItem v k = .error e) : e = keyErr ∨ e = subscriptErr := by
  cases v with
  | dict d =>
    simp only [pyGetItem] at h
    cases hfind : pyDictGet d k with
    | some r => rw [hfind] at h; simp at h
    | none => rw [hfind] at h; simp at h; exact Or.inl h.symm
  | none => simp [pyGetItem] at h; exact Or.inr h.symm
  | bool b => simp [pyGetItem] at h; exact Or.inr h.symm
  | int n => simp [pyGetItem] at h; exact Or.inr h.symm
  | str s => simp [pyGetItem] at h; exact Or.inr h.symm
  | list l => simp [pyGetItem] at h; exact Or.inr h.symm

lemma sanitize_any_error {v : PVal} {e : Exc}
    (h : sanitize_post_text_any v = .error e) : e = splitAttrErr := by
  cases v with
  | str s => simp [sanitize_post_text_any] at h
  | none =>
    simp only [sanitize_post_text_any, pyTruthy] at h
    simp at h
  | bool b =>
    simp only [sanitize_post_text_any, pyTruthy] at h
    cases b
    · simp at h
    · simp at h; exact h.symm
  | int n =>
    simp only [sanitize_post_text_any, pyTruthy] at h
    split at h
    · simp at h; exact h.symm
    · simp at h
  | list l =>
    simp only [sanitize_post_text_any, pyTruthy] at h
    split at h
    · simp at h; exact h.symm
    · simp at h
  | dict d =>
    simp only [sanitize_post_text_any, pyTruthy] at h
    split at h
    · simp at h; exact h.symm
    · simp at h

/-- Under dict-shaped chat responses, the tool loop completes without
raising, leaves the publish counters untouched and emits no publish or
persist events. -/
lemma execPlan_ok (env : Env) (hchat : ∀ k, ∃ d, env.chat k = .ok (.dict d)) :
    ∀ (steps : List Step) (s : St),
    ∃ s', execPlan env steps s = (.ok (), s') ∧ s'.postN = s.postN ∧
      s'.randN = s.randN ∧ s'.chatN = s.chatN + steps.length ∧
      ∃ ext, s'.trace = s.trace ++ ext ∧ (∀ ev ∈ ext, noPub ev = true) := by
  intro steps
  induction steps with
  | nil =>
    intro s
    exact ⟨s, rfl, rfl, rfl, by simp, [], by simp, by simp⟩
  | cons step rest ih =>
    intro s
    have tail : ∀ s1 : St, (∃ ext0, s1.trace = s.trace ++ ext0 ∧
        (∀ ev ∈ ext0, noPub ev = true)) → s1.postN = s.postN → s1.randN = s.randN →
        s1.chatN = s.chatN →
        ∃ s', (llmChat env >>= fun reaction =>
          liftExc (pyDotGet reaction "thinking" (PVal.str "")) >>= fun thinking =>
          appendMsg ⟨"assistant", thinking⟩ >>= fun _ =>
          execPlan env rest) s1 = (.ok (), s') ∧ s'.postN = s.postN ∧
          s'.randN = s.randN ∧ s'.chatN = s.chatN + rest.length + 1 ∧
          ∃ ext, s'.trace = s.trace ++ ext ∧ (∀ ev ∈ ext, noPub ev = true) := by
      rintro s1 ⟨ext1, htr1, hnp1⟩ hp1 hr1 hc1
      rw [bind_llmChat]
      obtain ⟨d, hd⟩ := hchat s1.chatN
      rw [hd]
      dsimp only
      rw [bind_liftExc]
      rw [show pyDotGet (PVal.dict d) "thinking" (PVal.str "") =
            .ok (pyDictGetD d "thinking" (PVal.str "")) from rfl]
      dsimp only
      rw [bind_appendMsg]
      obtain ⟨s3, hs3, hp3, hr3, hc3, ext3, htr3, hnp3⟩ := ih _
      refine ⟨s3, hs3, ?_, ?_, ?_, ext1 ++ Event.chatCall :: ext3, ?_, ?_⟩
      · rw [hp3]; exact hp1
      · rw [hr3]; exact hr1
      · rw [hc3]
        dsimp only
        rw [hc1]
        omega
      · rw [htr3]
        dsimp only
        rw [htr1]
        simp [List.append_assoc]
      · intro ev hev
        rcases List.mem_append.mp hev with h | h
        · exact hnp1 ev h
        · rcases List.mem_cons.mp h with h | h
          · subst h; rfl
          · exact hnp3 ev h
    simp only [execPlan]
    by_cases ht : (step.tool == "generate_image") = true
    · rw [if_pos ht, M_bind_apply]
      obtain ⟨s1, h1, hp1, hr1, hc1, ext1, htr1, hnp1⟩ := imageStepTry_ok env step s
      rw [h1]
      exact tail s1 ⟨ext1, htr1, hnp1⟩ hp1 hr1 hc1
    · rw [if_neg ht, M_bind_apply, M_pure_apply]
      exact tail s ⟨[], by simp, by simp⟩ rfl rfl rfl

/-- In general the tool loop either raises an error traceable to a chat
failure or an attribute error, or completes. -/
lemma execPlan_cases (env : Env) : ∀ (steps : List Step) (s : St),
    (∃ e s', execPlan env steps s = (.error e, s') ∧ ExcSrc env e) ∨
    (∃ s', execPlan env steps s = (.ok (), s')) := by
  intro steps
  induction steps with
  | nil => intro s; exact Or.inr ⟨s, rfl⟩
  | cons step rest ih =>
    intro s
    have tail : ∀ s1 : St,
        (∃ e s', (llmChat env >>= fun reaction =>
          liftExc (pyDotGet reaction "thinking" (PVal.str "")) >>= fun thinking =>
          appendMsg ⟨"assistant", thinking⟩ >>= fun _ =>
          execPlan env rest) s1 = (.error e, s') ∧ ExcSrc env e) ∨
        (∃ s', (llmChat env >>= fun reaction =>
          liftExc (pyDotGet reaction "thinking" (PVal.str "")) >>= fun thinking =>
          appendMsg ⟨"assistant", thinking⟩ >>= fun _ =>
          execPlan env rest) s1 = (.ok (), s')) := by
      intro s1
      rw [bind_llmChat]
      cases hd : env.chat s1.chatN with
      | error e =>
        exact Or.inl ⟨e, _, rfl, Or.inr (Or.inr (Or.inr (Or.inr (Or.inr (Or.inr
          (Or.inl ⟨s1.chatN, hd⟩)))))) ⟩
      | ok reaction =>
        dsimp only
        rw [bind_liftExc]
        cases hpd : pyDotGet reaction "thinking" (PVal.str "") with
        | error e =>
          refine Or.inl ⟨e, _, rfl, ?_⟩
          exact Or.inl (pyDotGet_error hpd)
        | ok thinking =>
          dsimp only
          rw [bind_appendMsg]
          exact ih _
    simp only [execPlan]
    by_cases ht : (step.tool == "generate_image") = true
    · rw [if_pos ht, M_bind_apply]
      obtain ⟨s1, h1, _⟩ := imageStepTry_ok env step s
      rw [h1]
      exact tail s1
    · rw [if_neg ht, M_bind_apply, M_pure_apply]
      exact tail s

/-- The bounded retry loop never raises, and a returned tweet dict comes
from a successful publish call. -/
lemma attemptPosts_cases (env : Env) (text : String) (media : Option (List PVal)) :
    ∀ (n : Nat) (s : St), ∃ r s',
    attemptPosts env text media n s = (.ok r, s') ∧
    (r = none ∨ ∃ k d, env.post k = .ok d ∧ r = some d) := by
  intro n
  induction n with
  | zero => intro s; exact ⟨none, s, rfl, Or.inl rfl⟩
  | succ n ih =>
    intro s
    simp only [attemptPosts]
    rw [tryCatchM_apply]
    rw [show ((do
        let d ← twitterPostM env text media
        pure (some d) : M (Option PVal))) s =
      ((twitterPostM env text media >>= fun d => pure (some d)) : M (Option PVal)) s
      from rfl]
    rw [bind_twitterPostM]
    cases hp : env.post s.postN with
    | ok d =>
      exact ⟨some d, _, rfl, Or.inr ⟨s.postN, d, hp, rfl⟩⟩
    | error e =>
      dsimp only
      exact ih _

/-- One unfolding of the retry loop. -/
lemma attemptPosts_succ_apply (env : Env) (text : String)
    (media : Option (List PVal)) (n : Nat) (s : St) :
    attemptPosts env text media (n + 1) s = match env.post s.postN with
      | .ok d => (.ok (some d),
          {s with postN := s.postN + 1, trace := s.trace ++ [.postCall text media]})
      | .error _ => attemptPosts env text media n
          {s with postN := s.postN + 1, trace := s.trace ++ [.postCall text media]} := by
  simp only [attemptPosts]
  rw [tryCatchM_apply]
  rw [show ((do
      let d ← twitterPostM env text media
      pure (some d) : M (Option PVal))) s =
    ((twitterPostM env text media >>= fun d => pure (some d)) : M (Option PVal)) s
    from rfl]
  rw [bind_twitterPostM]
  cases h : env.post s.postN <;> simp [h]

/-- When the three publish attempts all fail, the retry loop returns `None`
after recording exactly three publish events. -/
lemma attemptPosts3_fail (env : Env) (text : String) (media : Option (List PVal))
    (s : St) (h0 : ∃ e, env.post s.postN = .error e)
    (h1 : ∃ e, env.post (s.postN + 1) = .error e)
    (h2 : ∃ e, env.post (s.postN + 2) = .error e) :
    attemptPosts env text media 3 s = (.ok none,
      {s with postN := s.postN + 3,
              trace := s.trace ++ [.postCall text media, .postCall text media,
                                   .postCall text media]}) := by
  obtain ⟨e0, he0⟩ := h0
  obtain ⟨e1, he1⟩ := h1
  obtain ⟨e2, he2⟩ := h2
  rw [show (3 : Nat) = 2 + 1 from rfl, attemptPosts_succ_apply, he0]
  dsimp only
  rw [show (2 : Nat) = 1 + 1 from rfl, attemptPosts_succ_apply]
  dsimp only
  rw [he1]
  dsimp only
  rw [attemptPosts_succ_apply]
  dsimp only
  rw [show s.postN + 1 + 1 = s.postN + 2 from rfl, he2]
  dsimp only
  simp only [attemptPosts, M_pure_apply]
  simp [List.append_assoc]

lemma sanitizePlanLoop_error (tools : List String) : ∀ (steps : List PVal)
    (acc : List Step) (hi : Bool) (e : Exc),
    sanitizePlanLoop tools steps acc hi = .error e → e = unhashableErr := by
  intro steps
  induction steps with
  | nil => intro acc hi e h; simp [sanitizePlanLoop] at h
  | cons step rest ih =>
    intro acc hi e h
    cases step with
    | dict d =>
      simp only [sanitizePlanLoop] at h
      rcases htool : pyDictGetD d "tool" PVal.none with _ | b | n | s | l | d2 <;>
        rw [htool] at h
      · exact ih acc hi e h
      · exact ih acc hi e h
      · exact ih acc hi e h
      · simp only [pyHashable] at h
        rw [if_neg (by simp)] at h
        by_cases hc : tools.contains s = true
        · rw [if_pos hc] at h
          by_cases hdup : (s == "generate_image" && hi) = true
          · rw [if_pos hdup] at h
            exact ih acc hi e h
          · rw [if_neg hdup] at h
            by_cases hlen : 3 ≤ (acc ++ [Step.mk s (pyDictGetD d "params" (.dict []))]).length
            · rw [if_pos hlen] at h
              exact absurd h (by simp)
            · rw [if_neg hlen] at h
              exact ih _ _ e h
        · rw [if_neg hc] at h
          exact ih acc hi e h
      · rw [if_pos (by simp [pyHashable])] at h
        simp only [Except.error.injEq] at h
        exact h.symm
      · rw [if_pos (by simp [pyHashable])] at h
        simp only [Except.error.injEq] at h
        exact h.symm
    | none => simp only [sanitizePlanLoop] at h; exact ih acc hi e h
    | bool b => simp only [sanitizePlanLoop] at h; exact ih acc hi e h
    | int n => simp only [sanitizePlanLoop] at h; exact ih acc hi e h
    | str s => simp only [sanitizePlanLoop] at h; exact ih acc hi e h
    | list l => simp only [sanitizePlanLoop] at h; exact ih acc hi e h

lemma sanitize_plan_error {tools : List String} {plan : PVal} {e : Exc}
    (h : _sanitize_plan tools plan = .error e) : e = unhashableErr := by
  cases plan with
  | list steps =>
    simp only [_sanitize_plan] at h
    cases hloop : sanitizePlanLoop tools steps [] false with
    | error e' =>
      rw [hloop] at h
      simp only [Except.map] at h
      injection h with h
      subst h
      exact sanitizePlanLoop_error tools steps [] false e' hloop
    | ok sanitized =>
      rw [hloop] at h
      simp only [Except.map] at h
      exact Except.noConfusion h
  | none => exact Except.noConfusion h
  | bool b => exact Except.noConfusion h
  | int n => exact Except.noConfusion h
  | str s => exact Except.noConfusion h
  | dict d => exact Except.noConfusion h

/-- The media-upload step never raises and emits no publish event. -/
lemma mediaBranch_ok (env : Env) (img : Option (List Nat)) (s : St) :
    ∃ r s', mediaBranch env img s = (.ok r, s') ∧
      s'.postN = s.postN ∧ s'.randN = s.randN ∧ s'.chatN = s.chatN ∧
      s'.msgs = s.msgs ∧
      ∃ ext, s'.trace = s.trace ++ ext ∧ (∀ ev ∈ ext, noPub ev = true) := by
  unfold mediaBranch
  by_cases him : imgTruthy img = true
  swap
  · rw [if_neg him]
    exact ⟨none, s, rfl, rfl, rfl, rfl, rfl, [], by simp, by simp⟩
  rw [if_pos him]
  rw [tryCatchM_apply]
  rw [show ((do
      let mid ← uploadM env
      pure (some [mid]) : M (Option (List PVal)))) s =
    ((uploadM env >>= fun mid => pure (some [mid])) : M (Option (List PVal))) s
    from rfl]
  rw [bind_uploadM]
  cases hup : env.uploadMedia with
  | ok mid =>
    refine ⟨some [mid], _, rfl, rfl, rfl, rfl, rfl, [Event.upload], rfl, ?_⟩
    intro ev hev
    simp only [List.mem_singleton] at hev
    subst hev
    rfl
  | error e =>
    dsimp only
    rw [show ((do
        setImg none
        pure (none : Option (List PVal)) : M (Option (List PVal)))) =
      ((setImg none >>= fun _ => pure (none : Option (List PVal)))
        : M (Option (List PVal))) from rfl]
    rw [bind_setImg]
    refine ⟨none, _, rfl, rfl, rfl, rfl, rfl, [Event.upload], rfl, ?_⟩
    intro ev hev
    simp only [List.mem_singleton] at hev
    subst hev
    rfl

/-- The fallback publish either propagates a publish failure or returns the
published dict; in both cases it publishes the single catalog string. -/
lemma postFallback_cases (env : Env) (s : St) :
    (∃ e, postFallback env s = (.error e,
        {s with randN := s.randN + 1, postN := s.postN + 1,
                trace := s.trace ++ [.postCall fallbackText none]}) ∧
      env.post s.postN = .error e) ∨
    (∃ d, env.post s.postN = .ok d ∧ postFallback env s = (.ok d,
        {s with randN := s.randN + 1, postN := s.postN + 1,
                trace := s.trace ++ [.postCall fallbackText none]})) := by
  unfold postFallback
  rw [M_bind_apply, randChoiceM_fallback]
  cases hp : env.post s.postN with
  | error e =>
    refine Or.inl ⟨e, ?_, rfl⟩
    simp [twitterPostM, hp]
  | ok d =>
    refine Or.inr ⟨d, rfl, ?_⟩
    simp [twitterPostM, hp]

lemma excSrc_attr (env : Env) : ExcSrc env attrErr := Or.inl rfl

lemma excSrc_unhash (env : Env) : ExcSrc env unhashableErr := Or.inr (Or.inl rfl)

lemma excSrc_key (env : Env) : ExcSrc env keyErr := Or.inr (Or.inr (Or.inl rfl))

lemma excSrc_sub (env : Env) : ExcSrc env subscriptErr :=
  Or.inr (Or.inr (Or.inr (Or.inl rfl)))

lemma excSrc_split (env : Env) : ExcSrc env splitAttrErr :=
  Or.inr (Or.inr (Or.inr (Or.inr (Or.inl rfl))))

lemma excSrc_recent {env : Env} {e : Exc} (h : env.recentPosts = .error e) :
    ExcSrc env e := Or.inr (Or.inr (Or.inr (Or.inr (Or.inr (Or.inl h)))))

lemma excSrc_chat {env : Env} {e : Exc} (k : Nat) (h : env.chat k = .error e) :
    ExcSrc env e :=
  Or.inr (Or.inr (Or.inr (Or.inr (Or.inr (Or.inr (Or.inl ⟨k, h⟩))))))

lemma excSrc_post {env : Env} {e : Exc} (k : Nat) (h : env.post k = .error e) :
    ExcSrc env e :=
  Or.inr (Or.inr (Or.inr (Or.inr (Or.inr (Or.inr (Or.inr (Or.inl ⟨k, h⟩)))))))

lemma excSrc_save {env : Env} {e : Exc} (h : env.savePost = .error e) :
    ExcSrc env e :=
  Or.inr (Or.inr (Or.inr (Or.inr (Or.inr (Or.inr (Or.inr (Or.inr h)))))))

/-- The `if not tweet_data` resolution: either an error from a fallback
publish, or a tweet dict produced by some publish call. -/
lemma resolveTweet_cases (env : Env) (tweetOpt : Option PVal) (s : St)
    (hprov : tweetOpt = none ∨ ∃ k d, env.post k = .ok d ∧ tweetOpt = some d) :
    (∃ e s', resolveTweet env tweetOpt s = (.error e, s') ∧
      ∃ k, env.post k = .error e) ∨
    (∃ k d s', env.post k = .ok d ∧ resolveTweet env tweetOpt s = (.ok d, s')) := by
  cases tweetOpt with
  | none =>
    unfold resolveTweet
    dsimp only
    rcases postFallback_cases env s with ⟨e, heq, hpe⟩ | ⟨d, hpd, heq⟩
    · exact Or.inl ⟨e, _, heq, s.postN, hpe⟩
    · exact Or.inr ⟨s.postN, d, _, hpd, heq⟩
  | some d =>
    unfold resolveTweet
    dsimp only
    have hdprov : ∃ k, env.post k = .ok d := by
      rcases hprov with h | ⟨k, d', hkd, hdd⟩
      · exact absurd h (by simp)
      · injection hdd with hdd
        subst hdd
        exact ⟨k, hkd⟩
    by_cases htr : pyTruthy d = true
    · rw [if_pos htr]
      obtain ⟨k, hk⟩ := hdprov
      exact Or.inr ⟨k, d, s, hk, rfl⟩
    · rw [if_neg htr]
      rcases postFallback_cases env s with ⟨e, heq, hpe⟩ | ⟨d2, hpd2, heq⟩
      · exact Or.inl ⟨e, _, heq, s.postN, hpe⟩
      · exact Or.inr ⟨s.postN, d2, _, hpd2, heq⟩

/-- Every outcome of the publish pipeline: an error from an identified
source, or the success dict built from a published tweet dict. -/
lemma publishTail_cases (env : Env) (ptext : String) (s : St) :
    (∃ e s', publishTail env ptext s = (.error e, s') ∧ ExcSrc env e) ∨
    (∃ k d tid himg s', env.post k = .ok d ∧ pyGetItem d "id" = .ok tid ∧
       publishTail env ptext s = (.ok (successDict env tid ptext himg), s')) := by
  unfold publishTail
  rw [bind_getImg, M_bind_apply]
  obtain ⟨mi, s2, heq2, _⟩ := mediaBranch_ok env s.imgBytes s
  rw [heq2]
  dsimp only
  rw [M_bind_apply]
  obtain ⟨r, s3, heq3, hr⟩ := attemptPosts_cases env ptext mi 3 s2
  rw [heq3]
  dsimp only
  rw [M_bind_apply]
  rcases resolveTweet_cases env r s3 (by
      rcases hr with h | ⟨k, d, hk, hd⟩
      · exact Or.inl h
      · exact Or.inr ⟨k, d, hk, hd⟩) with ⟨e, s4, heq4, k, hpe⟩ | ⟨k, d, s4, hk, heq4⟩
  · rw [heq4]
    exact Or.inl ⟨e, _, rfl, excSrc_post _ hpe⟩
  · rw [heq4]
    dsimp only
    rw [bind_liftExc]
    cases hti : pyGetItem d "id" with
    | error e =>
      refine Or.inl ⟨e, _, rfl, ?_⟩
      rcases pyGetItem_error hti with h | h
      · rw [h]; exact excSrc_key env
      · rw [h]; exact excSrc_sub env
    | ok tid =>
      dsimp only
      rw [bind_getImg, bind_saveM]
      cases hsv : env.savePost with
      | error e => exact Or.inl ⟨e, _, rfl, excSrc_save hsv⟩
      | ok u =>
        dsimp only
        exact Or.inr ⟨k, d, tid, s4.imgBytes.isSome, _, hk, hti, rfl⟩

/-- Every outcome of the body after the tier check: either an error from
one of the identified sources, or a success dict built from a tweet dict
returned by some publish call. -/
lemma runMain_cases (env : Env) (s : St) :
    (∃ e s', runMain env s = (.error e, s') ∧ ExcSrc env e) ∨
    (∃ k d tid txt himg s', env.post k = .ok d ∧ pyGetItem d "id" = .ok tid ∧
       runMain env s = (.ok (successDict env tid txt himg), s')) := by
  unfold runMain
  rw [bind_dbGetRecent]
  cases hdb : env.recentPosts with
  | error e => exact Or.inl ⟨e, _, rfl, excSrc_recent hdb⟩
  | ok prev =>
    dsimp only
    rw [bind_setMsgs, bind_llmChat]
    dsimp only
    cases hc0 : env.chat s.chatN with
    | error e => exact Or.inl ⟨e, _, rfl, excSrc_chat _ hc0⟩
    | ok planRaw =>
      dsimp only
      rw [bind_liftExc]
      cases hpf : pyDotGet (decodePlanResult env planRaw) "plan" (PVal.list []) with
      | error e =>
        refine Or.inl ⟨e, _, rfl, ?_⟩
        rw [pyDotGet_error hpf]
        exact excSrc_attr env
      | ok planField =>
        dsimp only
        rw [bind_liftExc]
        cases hsan : _sanitize_plan env.tools planField with
        | error e =>
          refine Or.inl ⟨e, _, rfl, ?_⟩
          rw [sanitize_plan_error hsan]
          exact excSrc_unhash env
        | ok plan =>
          dsimp only
          rw [bind_appendMsg, M_bind_apply]
          rcases execPlan_cases env plan _ with ⟨e, s', heq, hsrc⟩ | ⟨s', heq⟩
          · rw [heq]
            exact Or.inl ⟨e, _, rfl, hsrc⟩
          · rw [heq]
            dsimp only
            rw [bind_appendMsg, bind_llmChat]
            dsimp only
            cases hcf : env.chat s'.chatN with
            | error e => exact Or.inl ⟨e, _, rfl, excSrc_chat _ hcf⟩
            | ok postRaw =>
              dsimp only
              rw [bind_liftExc]
              cases hsa : sanitize_post_text_any (decodePostText env postRaw) with
              | error e =>
                refine Or.inl ⟨e, _, rfl, ?_⟩
                rw [sanitize_any_error hsa]
                exact excSrc_split env
              | ok sanitized =>
                dsimp only
                by_cases hnf : needsFallback sanitized = true
                · rw [if_pos hnf, M_bind_apply, randChoiceM_fallback]
                  dsimp only
                  rcases publishTail_cases env fallbackText _ with
                    ⟨e, s4, heq4, hsrc⟩ | ⟨k, d, tid, himg, s4, hk, hti, heq4⟩
                  · rw [heq4]
                    exact Or.inl ⟨e, _, rfl, hsrc⟩
                  · rw [heq4]
                    exact Or.inr ⟨k, d, tid, fallbackText, himg, _, hk, hti, rfl⟩
                · rw [if_neg hnf, M_bind_apply, M_pure_apply]
                  dsimp only
                  rcases publishTail_cases env sanitized _ with
                    ⟨e, s4, heq4, hsrc⟩ | ⟨k, d, tid, himg, s4, hk, hti, heq4⟩
                  · rw [heq4]
                    exact Or.inl ⟨e, _, rfl, hsrc⟩
                  · rw [heq4]
                    exact Or.inr ⟨k, d, tid, sanitized, himg, _, hk, hti, rfl⟩

/-- Every outcome of the `try` body: an identified error, the tier-blocked
refusal (with untouched state), or a publish-backed success dict. -/
lemma runBody_cases (env : Env) (s : St) :
    (∃ e s', runBody env s = (.error e, s') ∧ ExcSrc env e) ∨
    (∃ tm r, env.tier = some tm ∧ tm.canPost = (false, r) ∧
       runBody env s = (.ok (blockedDict tm r), s)) ∨
    (∃ k d tid txt himg s', env.post k = .ok d ∧ pyGetItem d "id" = .ok tid ∧
       runBody env s = (.ok (successDict env tid txt himg), s')) := by
  unfold runBody
  cases htier : env.tier with
  | none =>
    rcases runMain_cases env s with ⟨e, s', heq, hsrc⟩ |
      ⟨k, d, tid, txt, himg, s', hk, hti, heq⟩
    · exact Or.inl ⟨e, s', heq, hsrc⟩
    · exact Or.inr (Or.inr ⟨k, d, tid, txt, himg, s', hk, hti, heq⟩)
  | some tm =>
    dsimp only
    rcases hcp : tm.canPost with ⟨cp, r⟩
    cases cp with
    | false =>
      exact Or.inr (Or.inl ⟨tm, r, rfl, hcp, rfl⟩)
    | true =>
      dsimp only
      rcases runMain_cases env s with ⟨e, s', heq, hsrc⟩ |
        ⟨k, d, tid, txt, himg, s', hk, hti, heq⟩
      · exact Or.inl ⟨e, s', heq, hsrc⟩
      · exact Or.inr (Or.inr ⟨k, d, tid, txt, himg, s', hk, hti, heq⟩)

/-- Field lookup on a dict-shaped result. -/
def pyLookup (v : PVal) (k : String) : Option PVal :=
  match v with
  | .dict d => pyDictGet d k
  | _ => none

/-- Whether a dict-shaped result carries the field `k`. -/
def pyHasKey (v : PVal) (k : String) : Bool := (pyLookup v k).isSome

/-- C5: with a present tier manager whose `can_post` refuses, `run` returns
the structured refusal immediately: `success=false`, the
`posting_blocked:`-prefixed error, and an empty collaborator trace and
conversation — no storage, model, image or platform call happens. -/
theorem run_tier_blocked (env : Env) (tm : TierEnv) (r : String)
    (htier : env.tier = some tm) (hcp : tm.canPost = (false, r)) :
    (AutoPostService.run env).1 = blockedDict tm r ∧
    pyLookup (AutoPostService.run env).1 "success" = some (.bool false) ∧
    pyLookup (AutoPostService.run env).1 "error" =
      some (.str ("posting_blocked: " ++ r)) ∧
    (AutoPostService.run env).2.trace = [] ∧
    (AutoPostService.run env).2.msgs = [] := by
  have hbody : runBody env {} = (.ok (blockedDict tm r), {}) := by
    unfold runBody
    rw [htier]
    dsimp only
    rw [hcp]
    rfl
  unfold AutoPostService.run
  rw [hbody]
  exact ⟨rfl, rfl, rfl, rfl, rfl⟩

/-- A concrete environment whose tier manager refuses. -/
def tierBlockedEnv : Env where
  tier := some ⟨(false, "daily_limit_reached"), .str "free", .int 50⟩
  recentPosts := .ok ""
  systemPrompt := ""
  chat := fun _ => .ok (.dict [])
  jsonLoads := fun _ => .ok (.dict [])
  jsonDumps := fun _ => ""
  tools := ["generate_image"]
  imageEnabled := false
  imageApi := .ok none
  uploadMedia := .ok .none
  post := fun _ => .ok (.dict [("id", .int 1)])
  savePost := .ok .none
  rand := fun _ => 0
  time0 := 0
  time1 := 1

/-- Witness for C5 at the concrete blocked environment. -/
theorem run_tier_blocked_witness :
    (AutoPostService.run tierBlockedEnv).1 =
      blockedDict ⟨(false, "daily_limit_reached"), .str "free", .int 50⟩
        "daily_limit_reached" ∧
    pyLookup (AutoPostService.run tierBlockedEnv).1 "success" =
      some (.bool false) ∧
    pyLookup (AutoPostService.run tierBlockedEnv).1 "error" =
      some (.str ("posting_blocked: " ++ "daily_limit_reached")) ∧
    (AutoPostService.run tierBlockedEnv).2.trace = [] ∧
    (AutoPostService.run tierBlockedEnv).2.msgs = [] :=
  run_tier_blocked tierBlockedEnv
    ⟨(false, "daily_limit_reached"), .str "free", .int 50⟩
    "daily_limit_reached" rfl rfl

/-- C9 (counterexample): the tier-blocked refusal result carries no
`duration_seconds` field, unlike the success and catch-all results. -/
theorem blocked_result_missing_duration :
    pyHasKey (AutoPostService.run tierBlockedEnv).1 "duration_seconds" = false ∧
    pyLookup (AutoPostService.run tierBlockedEnv).1 "success" =
      some (.bool false) :=
  ⟨rfl, rfl⟩

/-- C9 (amended): every result of `run` carries `duration_seconds`, except
the tier-blocked refusal, which carries only success, error, tier and
usage data. -/
theorem duration_present_unless_blocked (env : Env) :
    pyHasKey (AutoPostService.run env).1 "duration_seconds" = true ∨
    ∃ tm r, env.tier = some tm ∧ tm.canPost = (false, r) ∧
      (AutoPostService.run env).1 = blockedDict tm r := by
  rcases runBody_cases env {} with ⟨e, s', heq, _⟩ | ⟨tm, r, ht, hcp, heq⟩ |
    ⟨k, d, tid, txt, himg, s', _, _, heq⟩
  · left
    unfold AutoPostService.run
    rw [heq]
    rfl
  · right
    refine ⟨tm, r, ht, hcp, ?_⟩
    unfold AutoPostService.run
    rw [heq]
  · left
    unfold AutoPostService.run
    rw [heq]
    rfl

/-- All stored/raised error messages of the collaborators are non-empty
(Python's `str(e)` of these library exceptions is never the empty string). -/
def NonemptyErrEnv (env : Env) : Prop :=
  (∀ e, env.recentPosts = .error e → e.msg ≠ "") ∧
  (∀ k e, env.chat k = .error e → e.msg ≠ "") ∧
  (∀ k e, env.post k = .error e → e.msg ≠ "") ∧
  (∀ e, env.savePost = .error e → e.msg ≠ "")

/-- Every call to `twitter.post` — the 3 attempts and the fallback — fails. -/
def AllPostsFail (env : Env) : Prop := ∀ k, ∃ e, env.post k = .error e

lemma excSrc_msg_nonempty {env : Env} {e : Exc} (hne : NonemptyErrEnv env)
    (h : ExcSrc env e) : e.msg ≠ "" := by
  obtain ⟨h1, h2, h3, h4⟩ := hne
  rcases h with rfl | rfl | rfl | rfl | rfl | hr | ⟨k, hk⟩ | ⟨k, hk⟩ | hs
  · decide
  · decide
  · decide
  · decide
  · decide
  · exact h1 _ hr
  · exact h2 k _ hk
  · exact h3 k _ hk
  · exact h4 _ hs

/-- `run` always returns a dict that is either a success or a failure with a
string error field: no exception escapes to the caller. -/
lemma run_success_shape (env : Env) :
    pyLookup (AutoPostService.run env).1 "success" = some (.bool true) ∨
    (pyLookup (AutoPostService.run env).1 "success" = some (.bool false) ∧
     ∃ m, pyLookup (AutoPostService.run env).1 "error" = some (.str m)) := by
  rcases runBody_cases env {} with ⟨e, s', heq, _⟩ | ⟨tm, r, _, _, heq⟩ |
    ⟨k, d, tid, txt, himg, s', _, _, heq⟩
  · right
    unfold AutoPostService.run
    rw [heq]
    exact ⟨rfl, e.msg, rfl⟩
  · right
    unfold AutoPostService.run
    rw [heq]
    exact ⟨rfl, "posting_blocked: " ++ r, rfl⟩
  · left
    unfold AutoPostService.run
    rw [heq]
    rfl

/-- C1: if every publish call fails (3 attempts and the fallback included)
and the collaborators raise only non-empty messages, `run` returns
`success=false` with a non-empty error string; and for every environment
whatsoever `run` returns a plain result dict — success, or failure with a
string error — rather than raising. -/
theorem autopost_run_catchall (env : Env)
    (hne : NonemptyErrEnv env) (hfail : AllPostsFail env) :
    (pyLookup (AutoPostService.run env).1 "success" = some (.bool false) ∧
     ∃ m, pyLookup (AutoPostService.run env).1 "error" = some (.str m) ∧
       m ≠ "") ∧
    ∀ env2 : Env,
      pyLookup (AutoPostService.run env2).1 "success" = some (.bool true) ∨
      (pyLookup (AutoPostService.run env2).1 "success" = some (.bool false) ∧
       ∃ m, pyLookup (AutoPostService.run env2).1 "error" = some (.str m)) := by
  refine ⟨?_, fun env2 => run_success_shape env2⟩
  rcases runBody_cases env {} with ⟨e, s', heq, hsrc⟩ | ⟨tm, r, _, _, heq⟩ |
    ⟨k, d, tid, txt, himg, s', hk, _, heq⟩
  · refine ⟨?_, e.msg, ?_, excSrc_msg_nonempty hne hsrc⟩
    · unfold AutoPostService.run
      rw [heq]
      rfl
    · unfold AutoPostService.run
      rw [heq]
      rfl
  · refine ⟨?_, "posting_blocked: " ++ r, ?_, ?_⟩
    · unfold AutoPostService.run
      rw [heq]
      rfl
    · unfold AutoPostService.run
      rw [heq]
      rfl
    · intro hcon
      have h2 := congrArg String.data hcon
      rw [String.data_append, List.append_eq_nil] at h2
      exact absurd h2.1 (by decide)
  · obtain ⟨e, he⟩ := hfail k
    rw [he] at hk
    exact absurd hk (by simp)

/-- An environment where every publish call fails with message `boom`. -/
def allFailEnv : Env where
  tier := none
  recentPosts := .ok ""
  systemPrompt := ""
  chat := fun _ => .ok (.dict [])
  jsonLoads := fun _ => .ok (.dict [])
  jsonDumps := fun _ => ""
  tools := ["generate_image"]
  imageEnabled := false
  imageApi := .ok none
  uploadMedia := .ok .none
  post := fun _ => .error ⟨"boom"⟩
  savePost := .ok .none
  rand := fun _ => 0
  time0 := 0
  time1 := 1

/-- Witness for C1 at the concrete all-posts-fail environment. -/
theorem autopost_run_catchall_witness :
    (pyLookup (AutoPostService.run allFailEnv).1 "success" =
       some (.bool false) ∧
     ∃ m, pyLookup (AutoPostService.run allFailEnv).1 "error" =
       some (.str m) ∧ m ≠ "") ∧
    ∀ env2 : Env,
      pyLookup (AutoPostService.run env2).1 "success" = some (.bool true) ∨
      (pyLookup (AutoPostService.run env2).1 "success" = some (.bool false) ∧
       ∃ m, pyLookup (AutoPostService.run env2).1 "error" = some (.str m)) :=
  autopost_run_catchall allFailEnv
    ⟨fun e h => Except.noConfusion h,
     fun k e h => Except.noConfusion h,
     fun k e h => by
       injection h with h
       rw [show e = Exc.mk "boom" from h.symm]
       decide,
     fun e h => Except.noConfusion h⟩
    (fun k => ⟨⟨"boom"⟩, rfl⟩)

/-- The publish calls recorded in a trace: the text and media ids handed to
`twitter.post`, in call order. -/
def postEvents (tr : List Event) : List (String × Option (List PVal)) :=
  tr.filterMap fun ev => match ev with
    | .postCall t m => some (t, m)
    | _ => none

/-- The persist calls recorded in a trace: the arguments handed to
`db.save_post`, in call order. -/
def saveEvents (tr : List Event) : List (String × PVal × Bool) :=
  tr.filterMap fun ev => match ev with
    | .saveCall t tid hi => some (t, tid, hi)
    | _ => none

lemma postEvents_append (a b : List Event) :
    postEvents (a ++ b) = postEvents a ++ postEvents b := by
  simp [postEvents, List.filterMap_append]

lemma saveEvents_append (a b : List Event) :
    saveEvents (a ++ b) = saveEvents a ++ saveEvents b := by
  simp [saveEvents, List.filterMap_append]

lemma postEvents_nil_of_noPub : ∀ (tr : List Event),
    (∀ ev ∈ tr, noPub ev = true) → postEvents tr = [] := by
  intro tr
  induction tr with
  | nil => intro _; rfl
  | cons ev rest ih =>
    intro h
    have hev := h ev (by simp)
    have hrest := ih (fun e he => h e (by simp [he]))
    cases ev with
    | postCall t m => simp [noPub] at hev
    | saveCall t tid hi => simp [noPub] at hev
    | getRecent => simpa [postEvents, List.filterMap_cons] using hrest
    | chatCall => simpa [postEvents, List.filterMap_cons] using hrest
    | imageCall p => simpa [postEvents, List.filterMap_cons] using hrest
    | upload => simpa [postEvents, List.filterMap_cons] using hrest

lemma saveEvents_nil_of_noPub : ∀ (tr : List Event),
    (∀ ev ∈ tr, noPub ev = true) → saveEvents tr = [] := by
  intro tr
  induction tr with
  | nil => intro _; rfl
  | cons ev rest ih =>
    intro h
    have hev := h ev (by simp)
    have hrest := ih (fun e he => h e (by simp [he]))
    cases ev with
    | postCall t m => simp [noPub] at hev
    | saveCall t tid hi => simp [noPub] at hev
    | getRecent => simpa [saveEvents, List.filterMap_cons] using hrest
    | chatCall => simpa [saveEvents, List.filterMap_cons] using hrest
    | imageCall p => simpa [saveEvents, List.filterMap_cons] using hrest
    | upload => simpa [saveEvents, List.filterMap_cons] using hrest

/-- The publish pipeline in the all-attempts-fail / fallback-succeeds
scenario: three failed publishes of `ptext`, one successful fallback
publish of the catalog string, then `save_post` with `ptext` and the
fallback tweet's id, returning the success dict built around `ptext`. -/
lemma publishTail_fallback (env : Env) (ptext : String) (s : St)
    (hp0 : s.postN = 0)
    (hf0 : ∃ e, env.post 0 = .error e)
    (hf1 : ∃ e, env.post 1 = .error e)
    (hf2 : ∃ e, env.post 2 = .error e)
    {d : PVal} (hfb : env.post 3 = .ok d)
    {tid : PVal} (hid : pyGetItem d "id" = .ok tid)
    {sv : PVal} (hsave : env.savePost = .ok sv) :
    ∃ himg mi s', publishTail env ptext s =
        (.ok (successDict env tid ptext himg), s') ∧
      postEvents s'.trace = postEvents s.trace ++
        [(ptext, mi), (ptext, mi), (ptext, mi), (fallbackText, none)] ∧
      saveEvents s'.trace = saveEvents s.trace ++ [(ptext, tid, himg)] := by
  unfold publishTail
  rw [bind_getImg, M_bind_apply]
  obtain ⟨mi, s2, heq2, hp2, hr2, hc2, hm2, ext2, htr2, hnp2⟩ :=
    mediaBranch_ok env s.imgBytes s
  rw [heq2]
  dsimp only
  rw [M_bind_apply]
  have hpn2 : (3 : Nat) = s2.postN + 3 := by rw [hp2, hp0]
  have h3 : attemptPosts env ptext mi 3 s2 = (.ok none,
      {s2 with postN := s2.postN + 3,
               trace := s2.trace ++ [.postCall ptext mi, .postCall ptext mi,
                                     .postCall ptext mi]}) := by
    apply attemptPosts3_fail
    · rw [hp2, hp0]; exact hf0
    · rw [hp2, hp0]; exact hf1
    · rw [hp2, hp0]; exact hf2
  rw [h3]
  dsimp only
  rw [M_bind_apply]
  rw [show resolveTweet env none = postFallback env from rfl]
  rcases postFallback_cases env
      {s2 with postN := s2.postN + 3,
               trace := s2.trace ++ [.postCall ptext mi, .postCall ptext mi,
                                     .postCall ptext mi]} with
    ⟨e, heq4, hpe⟩ | ⟨d2, hpd2, heq4⟩
  · dsimp only at hpe
    rw [← hpn2, hfb] at hpe
    exact Except.noConfusion hpe
  · dsimp only at hpd2
    rw [← hpn2, hfb] at hpd2
    injection hpd2 with hd2
    subst hd2
    rw [heq4]
    dsimp only
    rw [bind_liftExc, hid]
    dsimp only
    rw [bind_getImg, M_bind_apply]
    dsimp only
    rw [show (saveM env ptext tid (Option.isSome s2.imgBytes)) _ =
        (env.savePost, _) from rfl, hsave]
    dsimp only
    rw [M_pure_apply]
    refine ⟨s2.imgBytes.isSome, mi, _, rfl, ?_, ?_⟩
    · dsimp only
      rw [htr2]
      simp only [postEvents_append, postEvents_nil_of_noPub ext2 hnp2]
      simp [List.append_assoc, postEvents]
    · dsimp only
      rw [htr2]
      simp only [saveEvents_append, saveEvents_nil_of_noPub ext2 hnp2]
      simp [List.append_assoc, saveEvents]

/-- The fallback-publish scenario for a pipeline state with no publish or
persist events yet: the trace projections of the final state are exactly
the three failed candidate publishes, the fallback publish and the single
persist call. -/
lemma publishTail_fallback_clean (env : Env) (ptext : String) (s : St)
    (hp0 : s.postN = 0)
    (hpe : postEvents s.trace = []) (hse : saveEvents s.trace = [])
    (hf0 : ∃ e, env.post 0 = .error e)
    (hf1 : ∃ e, env.post 1 = .error e)
    (hf2 : ∃ e, env.post 2 = .error e)
    {d : PVal} (hfb : env.post 3 = .ok d)
    {tid : PVal} (hid : pyGetItem d "id" = .ok tid)
    {sv : PVal} (hsave : env.savePost = .ok sv) :
    ∃ himg mi s', publishTail env ptext s =
        (.ok (successDict env tid ptext himg), s') ∧
      postEvents s'.trace =
        [(ptext, mi), (ptext, mi), (ptext, mi), (fallbackText, none)] ∧
      saveEvents s'.trace = [(ptext, tid, himg)] := by
  obtain ⟨himg, mi, s', heq, h1, h2⟩ :=
    publishTail_fallback env ptext s hp0 hf0 hf1 hf2 hfb hid hsave
  refine ⟨himg, mi, s', heq, ?_, ?_⟩
  · rw [h1, hpe]
    exact List.nil_append _
  · rw [h2, hse]
    exact List.nil_append _

/-- The candidate post text of the run (line 183-195 before publishing):
the sanitized generated text, or the first fallback pick when that text is
empty or shorter than 20 characters. -/
def candText (raw : String) : String :=
  if needsFallback (sanitize_post_text raw) then fallbackText
  else sanitize_post_text raw

/-- The full all-attempts-fail / fallback-succeeds scenario at the `run`
level: the generation pipeline succeeds and produces the candidate text,
the three publish attempts fail, the single fallback publish succeeds, and
`run` returns the success dict built around the candidate text while the
trace shows the fallback string as the last published text and the
candidate as the persisted one. -/
lemma run_fallback_scenario (env : Env)
    (htier : env.tier = none)
    {prev : String} (hrec : env.recentPosts = .ok prev)
    (hchat : ∀ k, ∃ dd, env.chat k = .ok (.dict dd))
    {d0 : List (String × PVal)} (hc0 : env.chat 0 = .ok (.dict d0))
    {plan : List Step}
    (hplan : _sanitize_plan env.tools (pyDictGetD d0 "plan" (.list [])) =
      .ok plan)
    {dF : List (String × PVal)} (hcF : env.chat (1 + plan.length) = .ok (.dict dF))
    {raw : String} (hptF : pyDictGetD dF "post_text" (.str "") = .str raw)
    (hf0 : ∃ e, env.post 0 = .error e)
    (hf1 : ∃ e, env.post 1 = .error e)
    (hf2 : ∃ e, env.post 2 = .error e)
    {d : PVal} (hfb : env.post 3 = .ok d)
    {tid : PVal} (hid : pyGetItem d "id" = .ok tid)
    {sv : PVal} (hsave : env.savePost = .ok sv) :
    ∃ himg mi s',
      AutoPostService.run env = (successDict env tid (candText raw) himg, s') ∧
      postEvents s'.trace =
        [(candText raw, mi), (candText raw, mi), (candText raw, mi),
         (fallbackText, none)] ∧
      saveEvents s'.trace = [(candText raw, tid, himg)] := by
  have hbody : ∃ himg mi s',
      runBody env {} = (.ok (successDict env tid (candText raw) himg), s') ∧
      postEvents s'.trace =
        [(candText raw, mi), (candText raw, mi), (candText raw, mi),
         (fallbackText, none)] ∧
      saveEvents s'.trace = [(candText raw, tid, himg)] := by
    unfold runBody
    rw [htier]
    dsimp only
    unfold runMain
    rw [bind_dbGetRecent, hrec]
    dsimp only
    rw [bind_setMsgs, bind_llmChat]
    dsimp only
    rw [hc0]
    dsimp only
    rw [bind_liftExc]
    rw [show pyDotGet (decodePlanResult env (PVal.dict d0)) "plan" (PVal.list []) =
          Except.ok (pyDictGetD d0 "plan" (PVal.list [])) from rfl]
    dsimp only
    rw [bind_liftExc, hplan]
    dsimp only
    rw [bind_appendMsg, M_bind_apply]
    obtain ⟨s4, heq4, hp4, hr4, hc4, ext4, htr4, hnp4⟩ := execPlan_ok env hchat plan _
    rw [heq4]
    dsimp only
    rw [bind_appendMsg, bind_llmChat]
    dsimp only
    have hc4x : s4.chatN = 1 + plan.length := hc4
    rw [hc4x, hcF]
    dsimp only
    rw [bind_liftExc]
    rw [show sanitize_post_text_any (decodePostText env (PVal.dict dF)) =
          Except.ok (sanitize_post_text raw) from by
        rw [show decodePostText env (PVal.dict dF) =
              pyDictGetD dF "post_text" (PVal.str "") from rfl, hptF]
        rfl]
    dsimp only
    by_cases hnf : needsFallback (sanitize_post_text raw) = true
    · rw [if_pos hnf, M_bind_apply, randChoiceM_fallback]
      dsimp only
      have hcand : candText raw = fallbackText := by
        unfold candText
        rw [if_pos hnf]
      rw [hcand]
      refine publishTail_fallback_clean env fallbackText _ ?_ ?_ ?_
        hf0 hf1 hf2 hfb hid hsave
      · exact hp4
      · dsimp only
        rw [htr4]
        simp only [postEvents_append, postEvents_nil_of_noPub ext4 hnp4,
          show postEvents ([] : List Event) = [] from rfl,
          show postEvents [Event.getRecent] = [] from rfl,
          show postEvents [Event.chatCall] = [] from rfl,
          List.nil_append, List.append_nil]
      · dsimp only
        rw [htr4]
        simp only [saveEvents_append, saveEvents_nil_of_noPub ext4 hnp4,
          show saveEvents ([] : List Event) = [] from rfl,
          show saveEvents [Event.getRecent] = [] from rfl,
          show saveEvents [Event.chatCall] = [] from rfl,
          List.nil_append, List.append_nil]
    · rw [if_neg hnf, M_bind_apply, M_pure_apply]
      dsimp only
      have hcand : candText raw = sanitize_post_text raw := by
        unfold candText
        rw [if_neg hnf]
      rw [hcand]
      refine publishTail_fallback_clean env (sanitize_post_text raw) _ ?_ ?_ ?_
        hf0 hf1 hf2 hfb hid hsave
      · exact hp4
      · dsimp only
        rw [htr4]
        simp only [postEvents_append, postEvents_nil_of_noPub ext4 hnp4,
          show postEvents ([] : List Event) = [] from rfl,
          show postEvents [Event.getRecent] = [] from rfl,
          show postEvents [Event.chatCall] = [] from rfl,
          List.nil_append, List.append_nil]
      · dsimp only
        rw [htr4]
        simp only [saveEvents_append, saveEvents_nil_of_noPub ext4 hnp4,
          show saveEvents ([] : List Event) = [] from rfl,
          show saveEvents [Event.getRecent] = [] from rfl,
          show saveEvents [Event.chatCall] = [] from rfl,
          List.nil_append, List.append_nil]
  obtain ⟨himg, mi, s', heq, h1, h2⟩ := hbody
  refine ⟨himg, mi, s', ?_, h1, h2⟩
  unfold AutoPostService.run
  rw [heq]

/-- C4: when the three publish attempts of `run` all fail and the single
fallback publish succeeds, `run` returns a `success=true` result whose
`tweet_id` is the id taken from the fallback publish's response. -/
theorem run_fallback_success (env : Env)
    (htier : env.tier = none)
    {prev : String} (hrec : env.recentPosts = .ok prev)
    (hchat : ∀ k, ∃ dd, env.chat k = .ok (.dict dd))
    {d0 : List (String × PVal)} (hc0 : env.chat 0 = .ok (.dict d0))
    {plan : List Step}
    (hplan : _sanitize_plan env.tools (pyDictGetD d0 "plan" (.list [])) =
      .ok plan)
    {dF : List (String × PVal)} (hcF : env.chat (1 + plan.length) = .ok (.dict dF))
    {raw : String} (hptF : pyDictGetD dF "post_text" (.str "") = .str raw)
    (hf0 : ∃ e, env.post 0 = .error e)
    (hf1 : ∃ e, env.post 1 = .error e)
    (hf2 : ∃ e, env.post 2 = .error e)
    {d : PVal} (hfb : env.post 3 = .ok d)
    {tid : PVal} (hid : pyGetItem d "id" = .ok tid)
    {sv : PVal} (hsave : env.savePost = .ok sv) :
    ∃ himg mi s',
      AutoPostService.run env = (successDict env tid (candText raw) himg, s') ∧
      pyLookup (AutoPostService.run env).1 "success" = some (.bool true) ∧
      pyLookup (AutoPostService.run env).1 "tweet_id" = some tid ∧
      postEvents s'.trace =
        [(candText raw, mi), (candText raw, mi), (candText raw, mi),
         (fallbackText, none)] := by
  obtain ⟨himg, mi, s', heq, h1, h2⟩ :=
    run_fallback_scenario env htier hrec hchat hc0 hplan hcF hptF
      hf0 hf1 hf2 hfb hid hsave
  refine ⟨himg, mi, s', heq, ?_, ?_, h1⟩
  · rw [heq]
    rfl
  · rw [heq]
    rfl

/-- A concrete generated text whose sanitized form is a valid candidate. -/
def rawC : String := "the gap continues to widen across sessions"

/-- A concrete environment where generation succeeds, the three publish
attempts fail and the fallback publish succeeds with tweet id 77. -/
def fbEnv : Env where
  tier := none
  recentPosts := .ok ""
  systemPrompt := ""
  chat := fun _ => .ok (.dict [("plan", .list []), ("post_text", .str rawC),
                               ("thinking", .str "")])
  jsonLoads := fun _ => .ok (.dict [])
  jsonDumps := fun _ => "plan"
  tools := ["generate_image"]
  imageEnabled := false
  imageApi := .ok none
  uploadMedia := .ok .none
  post := fun k => if k == 3 then .ok (.dict [("id", .int 77)])
                   else .error ⟨"network unreachable"⟩
  savePost := .ok .none
  rand := fun _ => 0
  time0 := 0
  time1 := 2

/-- Witness for C4 at the concrete environment. -/
theorem run_fallback_success_witness :
    ∃ himg mi s',
      AutoPostService.run fbEnv =
        (successDict fbEnv (.int 77) (candText rawC) himg, s') ∧
      pyLookup (AutoPostService.run fbEnv).1 "success" = some (.bool true) ∧
      pyLookup (AutoPostService.run fbEnv).1 "tweet_id" = some (.int 77) ∧
      postEvents s'.trace =
        [(candText rawC, mi), (candText rawC, mi), (candText rawC, mi),
         (fallbackText, none)] :=
  run_fallback_success fbEnv rfl rfl
    (fun _ => ⟨[("plan", .list []), ("post_text", .str rawC),
                ("thinking", .str "")], rfl⟩)
    rfl rfl rfl rfl
    ⟨⟨"network unreachable"⟩, rfl⟩ ⟨⟨"network unreachable"⟩, rfl⟩
    ⟨⟨"network unreachable"⟩, rfl⟩ rfl rfl rfl

/-- C10: in the all-attempts-fail / fallback-succeeds scenario with a valid
generated candidate, the last string actually published is the fresh
fallback pick, while both the `text` field of the returned result and the
text handed to `save_post` are the earlier candidate `post_text`, which
differs from the published fallback string. -/
theorem run_fallback_text_mismatch (env : Env)
    (htier : env.tier = none)
    {prev : String} (hrec : env.recentPosts = .ok prev)
    (hchat : ∀ k, ∃ dd, env.chat k = .ok (.dict dd))
    {d0 : List (String × PVal)} (hc0 : env.chat 0 = .ok (.dict d0))
    {plan : List Step}
    (hplan : _sanitize_plan env.tools (pyDictGetD d0 "plan" (.list [])) =
      .ok plan)
    {dF : List (String × PVal)} (hcF : env.chat (1 + plan.length) = .ok (.dict dF))
    {raw : String} (hptF : pyDictGetD dF "post_text" (.str "") = .str raw)
    (hf0 : ∃ e, env.post 0 = .error e)
    (hf1 : ∃ e, env.post 1 = .error e)
    (hf2 : ∃ e, env.post 2 = .error e)
    {d : PVal} (hfb : env.post 3 = .ok d)
    {tid : PVal} (hid : pyGetItem d "id" = .ok tid)
    {sv : PVal} (hsave : env.savePost = .ok sv)
    (hnf : needsFallback (sanitize_post_text raw) = false)
    (hneq : sanitize_post_text raw ≠ fallbackText) :
    ∃ himg mi s',
      AutoPostService.run env =
        (successDict env tid (sanitize_post_text raw) himg, s') ∧
      postEvents s'.trace =
        [(sanitize_post_text raw, mi), (sanitize_post_text raw, mi),
         (sanitize_post_text raw, mi), (fallbackText, none)] ∧
      (postEvents s'.trace).getLast? = some (fallbackText, none) ∧
      saveEvents s'.trace = [(sanitize_post_text raw, tid, himg)] ∧
      pyLookup (AutoPostService.run env).1 "text" =
        some (.str (sanitize_post_text raw)) ∧
      sanitize_post_text raw ≠ fallbackText := by
  have hcand : candText raw = sanitize_post_text raw := by
    unfold candText
    rw [if_neg (by simp [hnf])]
  obtain ⟨himg, mi, s', heq, h1, h2⟩ :=
    run_fallback_scenario env htier hrec hchat hc0 hplan hcF hptF
      hf0 hf1 hf2 hfb hid hsave
  rw [hcand] at heq h1 h2
  refine ⟨himg, mi, s', heq, h1, ?_, h2, ?_, hneq⟩
  · rw [h1]
    rfl
  · rw [heq]
    rfl

set_option maxRecDepth 10000 in
/-- Witness for C10 at the concrete environment: the candidate differs
from the published fallback string. -/
theorem run_fallback_text_mismatch_witness :
    ∃ himg mi s',
      AutoPostService.run fbEnv =
        (successDict fbEnv (.int 77) (sanitize_post_text rawC) himg, s') ∧
      postEvents s'.trace =
        [(sanitize_post_text rawC, mi), (sanitize_post_text rawC, mi),
         (sanitize_post_text rawC, mi), (fallbackText, none)] ∧
      (postEvents s'.trace).getLast? = some (fallbackText, none) ∧
      saveEvents s'.trace = [(sanitize_post_text rawC, .int 77, himg)] ∧
      pyLookup (AutoPostService.run fbEnv).1 "text" =
        some (.str (sanitize_post_text rawC)) ∧
      sanitize_post_text rawC ≠ fallbackText :=
  run_fallback_text_mismatch fbEnv rfl rfl
    (fun _ => ⟨[("plan", .list []), ("post_text", .str rawC),
                ("thinking", .str "")], rfl⟩)
    rfl rfl rfl rfl
    ⟨⟨"network unreachable"⟩, rfl⟩ ⟨⟨"network unreachable"⟩, rfl⟩
    ⟨⟨"network unreachable"⟩, rfl⟩ rfl rfl rfl
    (by decide) (by decide)

/-- Whether a conversation message is the synthetic image-tool note
`{"role": "user", "content": "Tool result (generate_image): completed"}`. -/
def isNoteMsg (m : Msg) : Bool :=
  m.role == "user" &&
    (match m.content with
     | .str t => t == "Tool result (generate_image): completed"
     | _ => false)

/-- How many image-tool notes a conversation holds. -/
def countNote (msgs : List Msg) : Nat := msgs.countP isNoteMsg

lemma countNote_append_note (msgs : List Msg) :
    countNote (msgs ++ [noteMsg]) = countNote msgs + 1 := by
  simp only [countNote, List.countP_append]
  rfl

/-- C8 (amended): the image try-block never raises, and the tool note is
appended exactly when the image call returns without raising — including
the disabled-capability and handled-failure cases, where the call returns
an absent result and the note is still appended; only a raising call (or a
failing `params.get`) leaves the conversation without the note, and then
the image result is absent. -/
theorem image_note_iff_no_raise (env : Env) (step : Step) (s : St) :
    ∃ s', imageStepTry env step s = (.ok (), s') ∧
      ((∃ e, pyDotGet step.params "prompt" (.str "") = .error e ∧
          countNote s'.msgs = countNote s.msgs ∧ s'.imgBytes = none) ∨
       (∃ e, generate_image env.imageEnabled env.imageApi = .error e ∧
          countNote s'.msgs = countNote s.msgs ∧ s'.imgBytes = none) ∨
       (∃ b, generate_image env.imageEnabled env.imageApi = .ok b ∧
          countNote s'.msgs = countNote s.msgs + 1 ∧ s'.imgBytes = b)) := by
  unfold imageStepTry
  rw [tryCatchM_apply]
  rw [show ((do
      let prompt ← liftExc (pyDotGet step.params "prompt" (.str ""))
      let b ← genImageM env prompt
      setImg b
      appendMsg noteMsg : M Unit)) s =
    ((liftExc (pyDotGet step.params "prompt" (.str "")) >>= fun prompt =>
      genImageM env prompt >>= fun b => setImg b >>= fun _ =>
      appendMsg noteMsg) : M Unit) s from rfl]
  rw [bind_liftExc]
  cases hpg : pyDotGet step.params "prompt" (.str "") with
  | error e =>
    refine ⟨{s with imgBytes := none}, ?_, Or.inl ⟨e, rfl, rfl, rfl⟩⟩
    simp [setImg]
  | ok prompt =>
    dsimp only
    rw [bind_genImageM]
    cases hgi : generate_image env.imageEnabled env.imageApi with
    | error e =>
      dsimp only
      refine ⟨{s with trace := s.trace ++ [Event.imageCall prompt],
                      imgBytes := none}, ?_, Or.inr (Or.inl ⟨e, rfl, rfl, rfl⟩)⟩
      simp [setImg]
    | ok b =>
      dsimp only
      rw [bind_setImg]
      refine ⟨{s with trace := s.trace ++ [Event.imageCall prompt],
                      imgBytes := b, msgs := s.msgs ++ [noteMsg]}, ?_,
              Or.inr (Or.inr ⟨b, rfl, countNote_append_note s.msgs, rfl⟩)⟩
      simp [appendMsg]

/-- A concrete environment whose plan holds one `generate_image` step while
image generation is disabled in settings; the platform and storage calls
all succeed. -/
def c8Env : Env where
  tier := none
  recentPosts := .ok ""
  systemPrompt := ""
  chat := fun _ => .ok (.dict
    [("plan", .list [.dict [("tool", .str "generate_image"),
                            ("params", .dict [])]]),
     ("post_text", .str rawC), ("thinking", .str "")])
  jsonLoads := fun _ => .ok (.dict [])
  jsonDumps := fun _ => "plan"
  tools := ["generate_image"]
  imageEnabled := false
  imageApi := .ok (some [1, 2, 3])
  uploadMedia := .ok .none
  post := fun _ => .ok (.dict [("id", .int 5)])
  savePost := .ok .none
  rand := fun _ => 0
  time0 := 0
  time1 := 1

/-- C8 (counterexample): with image generation disabled the tool returns an
absent result without raising — and the tool-note IS appended to the
conversation even though the image result is absent, contradicting the
claim that the note appears only when bytes were produced. -/
theorem image_note_disabled_counterexample :
    generate_image c8Env.imageEnabled c8Env.imageApi = .ok none ∧
    ∃ s', imageStepTry c8Env ⟨"generate_image", .dict []⟩ {} = (.ok (), s') ∧
      countNote s'.msgs = 1 ∧ s'.imgBytes = none :=
  ⟨rfl, ⟨{trace := [Event.imageCall (.str "")], msgs := [noteMsg],
          chatN := 0, postN := 0, randN := 0, imgBytes := none},
    rfl, rfl, rfl⟩⟩
